import Mathlib

/-!
Shallow embedding of the LinPyK task-graph compiler and backend
(repository `ArmoniK.LinPyK`), together with theorems checking the
natural-language specification against the code.

Conventions of the embedding:
* Python dynamic values are modelled by `PValue`; JSON documents by `JValue`.
  `json.dumps` followed by `json.loads` is modelled as the identity on the
  JSON document (`JValue`): for finite floats Python's `json` module
  round-trips the textual form exactly, so the byte layer is not modelled.
* Python floats are modelled as rationals; every float literal occurring in
  the repository is a small dyadic rational, and no claim computes with them.
* Machine-level exceptions are modelled by `PyError`; a raised exception
  carries the state at the moment of the raise (Python mutations performed
  before a raise persist).
-/

/-- A Python runtime value, as far as the repository manipulates them.
`float` is an exact rational stand-in (see the header comment).
`dict` is an insertion-ordered association list with string keys, which is
how every dict in the repository is used. -/
inductive PValue where
  | none
  | bool (b : Bool)
  | int (n : Int)
  | float (q : Rat)
  | str (s : String)
  | list (xs : List PValue)
  | tuple (xs : List PValue)
  | dict (xs : List (String × PValue))

/-- A JSON document, the image of `json.dumps`.  JSON has no tuples:
`json.dumps` writes a Python tuple as an array. -/
inductive JValue where
  | null
  | bool (b : Bool)
  | int (n : Int)
  | float (q : Rat)
  | str (s : String)
  | arr (xs : List JValue)
  | obj (xs : List (String × JValue))

mutual
/-- `json.dumps` on one Python value: tuples become arrays. -/
def PValue.toJson : PValue → JValue
  | .none => .null
  | .bool b => .bool b
  | .int n => .int n
  | .float q => .float q
  | .str s => .str s
  | .list xs => .arr (PValue.toJsonList xs)
  | .tuple xs => .arr (PValue.toJsonList xs)
  | .dict xs => .obj (PValue.toJsonDict xs)

def PValue.toJsonList : List PValue → List JValue
  | [] => []
  | x :: xs => x.toJson :: PValue.toJsonList xs

def PValue.toJsonDict : List (String × PValue) → List (String × JValue)
  | [] => []
  | (k, v) :: xs => (k, v.toJson) :: PValue.toJsonDict xs
end



mutual
/-- `json.loads` on one JSON document, producing a Python value
(arrays come back as lists). -/
def JValue.toPy : JValue → PValue
  | .null => .none
  | .bool b => .bool b
  | .int n => .int n
  | .float q => .float q
  | .str s => .str s
  | .arr xs => .list (JValue.toPyList xs)
  | .obj xs => .dict (JValue.toPyDict xs)

def JValue.toPyList : List JValue → List PValue
  | [] => []
  | x :: xs => x.toPy :: JValue.toPyList xs

def JValue.toPyDict : List (String × JValue) → List (String × PValue)
  | [] => []
  | (k, v) :: xs => (k, v.toPy) :: JValue.toPyDict xs
end



mutual
/-- A Python value survives `json.loads(json.dumps(-))` unchanged exactly
when it contains no tuple (tuples come back as lists). -/
def PValue.jsonStable : PValue → Bool
  | .none | .bool _ | .int _ | .float _ | .str _ => true
  | .list xs => PValue.jsonStableList xs
  | .tuple _ => false
  | .dict xs => PValue.jsonStableDict xs

def PValue.jsonStableList : List PValue → Bool
  | [] => true
  | x :: xs => x.jsonStable && PValue.jsonStableList xs

def PValue.jsonStableDict : List (String × PValue) → Bool
  | [] => true
  | (_, v) :: xs => v.jsonStable && PValue.jsonStableDict xs
end





/-- The Python exceptions the embedded code can raise.  `backendError` and
`graphIntegrityError` come from `linpyk/exceptions.py`; the others are
Python built-ins (`networkXUnfeasible` is the networkx cycle error raised
by `topological_sort`). -/
inductive PyError where
  | valueError (msg : String)
  | keyError (key : String)
  | typeError (msg : String)
  | attributeError (msg : String)
  | runtimeError (msg : String)
  | notImplementedError
  | backendError (msg : String)
  | graphIntegrityError (msg : String)
  | networkXUnfeasible (msg : String)
deriving DecidableEq, Repr

/-- `OpCode` from `linpyk/common/opcode.py`: `@unique class OpCode(IntEnum)`
with members in declaration order, values assigned by `auto()` from 1. -/
inductive OpCode where
  | DRGM
  | POTRF
  | TRSM
  | SYRK
  | GEMM
  | ONES
deriving DecidableEq, Repr

/-- The integer value of the `IntEnum` member (`auto()` numbers from 1). -/
def OpCode.toInt : OpCode → Int
  | .DRGM => 1
  | .POTRF => 2
  | .TRSM => 3
  | .SYRK => 4
  | .GEMM => 5
  | .ONES => 6

/-- `OpCode(n)`: the enum constructor on an integer; raises `ValueError` for
a value that is not a member. -/
def OpCode.ofInt (n : Int) : Except PyError OpCode :=
  if n = 1 then .ok .DRGM
  else if n = 2 then .ok .POTRF
  else if n = 3 then .ok .TRSM
  else if n = 4 then .ok .SYRK
  else if n = 5 then .ok .GEMM
  else if n = 6 then .ok .ONES
  else .error (.valueError ("not a valid OpCode: " ++ toString n))

/-- External result ids.  `DummyBackend.request_output_id` returns
`str(uuid.uuid4())`; the uuids are modelled as opaque fresh naturals drawn
from a counter (the uuid contract is that successive draws are distinct).
A `DataNode.result_id` is `None` until the pre-compile pass assigns it,
hence `Option Nat` wherever a result id is read from a node. -/
abbrev ResultId := Option Nat

/-- `Payload` from `linpyk/common/payload.py`: a dataclass with the four
fields below.  `opcode` is stored as the `IntEnum`'s integer value (an
`IntEnum` compares equal to its integer, and is serialized as one).
The dictionaries are insertion-ordered association lists. -/
structure Payload where
  opcode : Int
  expected_output_names : List (String × ResultId)
  dependency_names : Option (List (String × ResultId))
  params : Option (List (String × PValue))

/-- A result id as `json.dumps` writes it (`None` is `null`). -/
def ResultId.toJson : ResultId → JValue
  | Option.none => .null
  | some n => .int (n : Int)

/-- `Payload.serialize`: `json.dumps` of the four-key dictionary, written in
the key order of the source.  The byte layer (`.encode("utf-8")` and the
JSON text) is modelled as the JSON document itself. -/
def Payload.serialize (p : Payload) : JValue :=
  .obj [("opcode", .int p.opcode),
        ("params", match p.params with
          | Option.none => .null
          | some m => .obj (PValue.toJsonDict m)),
        ("expected_output_names",
          .obj (p.expected_output_names.map fun kv => (kv.1, ResultId.toJson kv.2))),
        ("dependency_names", match p.dependency_names with
          | Option.none => .null
          | some m => .obj (m.map fun kv => (kv.1, ResultId.toJson kv.2)))]

/-- Read one result id back from JSON.  (The Python dataclass performs no
runtime type validation; the error branches below are only ever taken on
documents that `Payload.serialize` never produces.) -/
def JValue.toResultId : JValue → Except PyError ResultId
  | .null => .ok Option.none
  | .int n => .ok (some n.toNat)
  | _ => .error (.typeError "result id expected")

/-- Read the entries of an id dictionary back from JSON. -/
def JValue.toIdEntries : List (String × JValue) → Except PyError (List (String × ResultId))
  | [] => .ok []
  | (k, v) :: xs =>
    match JValue.toResultId v with
    | .error e => .error e
    | .ok i =>
      match JValue.toIdEntries xs with
      | .error e => .error e
      | .ok rest => .ok ((k, i) :: rest)

/-- Read an id dictionary back from JSON. -/
def JValue.toIdDict : JValue → Except PyError (List (String × ResultId))
  | .obj xs => JValue.toIdEntries xs
  | _ => .error (.typeError "dict expected")

/-- Read an optional id dictionary back from JSON (`null` is `None`). -/
def JValue.toOptIdDict : JValue → Except PyError (Option (List (String × ResultId)))
  | .null => .ok Option.none
  | v => (JValue.toIdDict v).map some

/-- Read the optional parameter dictionary back from JSON. -/
def JValue.toOptParams : JValue → Except PyError (Option (List (String × PValue)))
  | .null => .ok Option.none
  | .obj xs => .ok (some (JValue.toPyDict xs))
  | _ => .error (.typeError "dict expected")

/-- `Payload.deserialize`: `cls(**json.loads(payload))`, reading the four
keyword arguments out of the parsed document. -/
def Payload.deserialize (j : JValue) : Except PyError Payload :=
  match j with
  | .obj fields =>
    match fields.lookup "opcode" with
    | some (.int n) =>
      (match fields.lookup "params" with
       | some v => JValue.toOptParams v
       | Option.none => Except.error (.typeError "missing params")).bind fun params =>
      (match fields.lookup "expected_output_names" with
       | some v => JValue.toIdDict v
       | Option.none => Except.error (.typeError "missing expected_output_names")).bind fun outs =>
      (match fields.lookup "dependency_names" with
       | some v => JValue.toOptIdDict v
       | Option.none => Except.error (.typeError "missing dependency_names")).map fun deps =>
      ⟨n, outs, deps, params⟩
    | _ => .error (.typeError "opcode expected")
  | _ => .error (.typeError "object expected")

/-- The parameter map of a payload survives JSON exactly when every value in
it is tuple-free. -/
def Payload.paramsJsonStable (p : Payload) : Bool :=
  match p.params with
  | Option.none => true
  | some m => PValue.jsonStableDict m

/-- The payload of a `DRGM` (remote-generate) task as the compiler builds it
from a `remote_dtarray_generator` control node: the `idx` parameter is the
Python tuple `(0, 0)` (`a.tiles(index=True)` yields tuple indices). -/
def drgmPayload : Payload :=
  ⟨OpCode.DRGM.toInt, [("a", some 0)], Option.none,
   some [("gen", .str "eye"), ("size", .int 2), ("idx", .tuple [.int 0, .int 0])]⟩

/-- A payload with both optional maps present but empty (the boundary case
named by the claim). -/
def emptyMapsPayload : Payload := ⟨OpCode.TRSM.toInt, [("x", some 5)], some [], some []⟩

/-- The attributes of a graph node (`linpyk/graph/nodes.py`).  Labels and
style options are purely diagnostic (spec §3) and are not modelled.
`data` is a `TileNode` — every data node the repository creates is one —
carrying the lazily assigned `result_id`, the tile `shape` and the `values`
slot.  `control` carries the opcode and the keyword parameter dict. -/
inductive NodeInfo where
  | data (resultId : ResultId) (shape : List Nat) (values : PValue)
  | control (opcode : OpCode) (params : List (String × PValue))

/-- A graph node.  Python nodes are mutable objects whose identity is
independent of their attributes; `uid` models the object identity. -/
structure PyNode where
  uid : Nat
  info : NodeInfo

def NodeInfo.isData : NodeInfo → Bool
  | .data .. => true
  | .control .. => false

def PyNode.isData (n : PyNode) : Bool := n.info.isData

def PyNode.isControl (n : PyNode) : Bool := !n.info.isData

/-- A directed edge with its attribute dict (`input_name` / `output_name`
role tags), as stored by `networkx.DiGraph`. -/
structure Edge where
  src : Nat
  dst : Nat
  attrs : List (String × String)

/-- `ArmoniKGraph` (`linpyk/graph/graph.py`), a `networkx.DiGraph`: nodes in
insertion order, and at most one edge per ordered node pair. -/
structure Graph where
  nodes : List PyNode
  edges : List Edge

def Graph.uids (g : Graph) : List Nat := g.nodes.map (·.uid)

/-- Find the node object with a given identity. -/
def Graph.lookupNode (g : Graph) (u : Nat) : Option PyNode :=
  g.nodes.find? (fun n => n.uid == u)

/-- `DiGraph.add_node`: adding an already present node is a no-op (the
attributes live on the node object itself). -/
def Graph.addNode (g : Graph) (n : PyNode) : Graph :=
  if g.uids.contains n.uid then g else { g with nodes := g.nodes ++ [n] }

/-- Edge insertion on a graph whose endpoints are already present: a
repeated ordered pair overwrites the edge attributes. -/
def Graph.addEdgeAux (g : Graph) (u v : Nat) (attrs : List (String × String)) : Graph :=
  if g.edges.any (fun e => e.src == u && e.dst == v) then
    { g with edges := g.edges.map fun e =>
        if e.src == u && e.dst == v then { e with attrs := attrs } else e }
  else
    { g with edges := g.edges ++ [⟨u, v, attrs⟩] }

/-- `DiGraph.add_edge` between two node objects: missing endpoints are
added, and a repeated ordered pair overwrites the edge attributes. -/
def Graph.addEdge (g : Graph) (n m : PyNode) (attrs : List (String × String)) : Graph :=
  Graph.addEdgeAux ((g.addNode n).addNode m) n.uid m.uid attrs

/-- `DiGraph.in_degree`. -/
def Graph.inDegree (g : Graph) (u : Nat) : Nat :=
  (g.edges.filter (fun e => e.dst == u)).length

/-- `DiGraph.out_degree`. -/
def Graph.outDegree (g : Graph) (u : Nat) : Nat :=
  (g.edges.filter (fun e => e.src == u)).length

/-- `DiGraph.successors`, as a list of node identities. -/
def Graph.successors (g : Graph) (u : Nat) : List Nat :=
  (g.edges.filter (fun e => e.src == u)).map (·.dst)

/-- `DiGraph.predecessors`, as a list of node identities. -/
def Graph.predecessors (g : Graph) (u : Nat) : List Nat :=
  (g.edges.filter (fun e => e.dst == u)).map (·.src)

/-- `G.edges[u, v][key]`: raises `KeyError` when the attribute (or the
edge) is absent. -/
def Graph.edgeAttr (g : Graph) (u v : Nat) (key : String) : Except PyError String :=
  match g.edges.find? (fun e => e.src == u && e.dst == v) with
  | Option.none => .error (.keyError key)
  | some e =>
    match e.attrs.lookup key with
    | some s => .ok s
    | Option.none => .error (.keyError key)

/-- A node is ready to be emitted by a topological sort once every edge
into it comes from an already emitted node. -/
def nodeReady (edges : List Edge) (done : List Nat) (u : Nat) : Bool :=
  edges.all fun e => e.dst != u || done.contains e.src

/-- Work loop of the topological sort: `done` holds the already emitted
node identities, `pending` the rest; one ready node is emitted per step.
Models `networkx.topological_sort` (Kahn's algorithm); the claims and the
spec require *any* valid topological order, so networkx's tie-breaking is
not reproduced. -/
def topoAux (edges : List Edge) : Nat → List Nat → List Nat → Option (List Nat)
  | _, _, [] => some []
  | 0, _, _ :: _ => Option.none
  | fuel + 1, done, p :: ps =>
    match (p :: ps).find? (nodeReady edges done) with
    | Option.none => Option.none
    | some u => (topoAux edges fuel (u :: done) ((p :: ps).erase u)).map (u :: ·)

/-- `networkx.topological_sort` on the graph: `some order` on a DAG,
`none` exactly when the graph has a cycle (`NetworkXUnfeasible`). -/
def Graph.topoSort (g : Graph) : Option (List Nat) :=
  topoAux g.edges g.nodes.length [] g.uids

/-- A valid topological order of the edge set: the source of every edge
occurs strictly before every occurrence of its target. -/
def IsTopoOrder (edges : List Edge) (order : List Nat) : Prop :=
  ∀ e ∈ edges, ∀ pre u suf, order = pre ++ u :: suf → e.dst = u → e.src ∈ pre

/-- Does this edge join two nodes of the same kind?  Models
`type(rn) == type(ln)` from `ArmoniKGraph._check_integrity`: every data
node the repository creates is a `TileNode`, so exact-class equality
coincides with kind equality. -/
def Graph.sameKindEdge? (g : Graph) (e : Edge) : Bool :=
  match g.lookupNode e.src, g.lookupNode e.dst with
  | some n, some m => n.isData == m.isData
  | _, _ => false

/-- The bipartite invariant: no edge joins two nodes of the same kind. -/
def Graph.Bipartite (g : Graph) : Prop :=
  ∀ e ∈ g.edges, g.sameKindEdge? e = false

/-- Basic well-formedness guaranteed by `networkx`: node identities are
unique, and both endpoints of every edge are nodes of the graph. -/
def Graph.WF (g : Graph) : Prop :=
  g.uids.Nodup ∧ ∀ e ∈ g.edges, e.src ∈ g.uids ∧ e.dst ∈ g.uids

/-- Every out-edge of a control node carries its `output_name` role tag and
every in-edge its `input_name` tag — how the operator builders always
attach edges (spec §3: edges are tagged with role names). -/
def Graph.edgeTagged? (g : Graph) (e : Edge) : Bool :=
  (match g.lookupNode e.src with
   | some n => !n.isControl || (e.attrs.lookup "output_name").isSome
   | Option.none => true) &&
  (match g.lookupNode e.dst with
   | some n => !n.isControl || (e.attrs.lookup "input_name").isSome
   | Option.none => true)

def Graph.EdgesTagged (g : Graph) : Prop :=
  ∀ e ∈ g.edges, g.edgeTagged? e = true

/-- `node.result_id` read on a node object: `DataNode`s have the
attribute, `ControlNode`s do not (`AttributeError`). -/
def Graph.nodeResultId (g : Graph) (u : Nat) : Except PyError ResultId :=
  match g.lookupNode u with
  | some ⟨_, .data rid _ _⟩ => .ok rid
  | some ⟨_, .control ..⟩ => .error (.attributeError "result_id")
  | Option.none => .error (.keyError "node")

/-- `TaskDefinition` from `armonik.common` (external DTO): the serialized
payload plus the flat id lists the scheduler needs. -/
structure TaskDefinition where
  payload : JValue
  expected_output_ids : List ResultId
  data_dependencies : List ResultId

/-- The `expected_output_names` dict comprehension of
`SessionContext._compile`, for one control node `c`: for each successor
`s`, the edge's `output_name` role mapped to `s.result_id`. -/
def Graph.outEntries (g : Graph) (c : Nat) : List Nat → Except PyError (List (String × ResultId))
  | [] => .ok []
  | s :: ss =>
    match g.edgeAttr c s "output_name" with
    | .error e => .error e
    | .ok role =>
      match g.nodeResultId s with
      | .error e => .error e
      | .ok rid =>
        match Graph.outEntries g c ss with
        | .error e => .error e
        | .ok rest => .ok ((role, rid) :: rest)

/-- The `dependency_names` dict comprehension of `SessionContext._compile`,
for one control node `c`: for each predecessor `p`, the edge's
`input_name` role mapped to `p.result_id`. -/
def Graph.inEntries (g : Graph) (c : Nat) : List Nat → Except PyError (List (String × ResultId))
  | [] => .ok []
  | p :: ps =>
    match g.edgeAttr p c "input_name" with
    | .error e => .error e
    | .ok role =>
      match g.nodeResultId p with
      | .error e => .error e
      | .ok rid =>
        match Graph.inEntries g c ps with
        | .error e => .error e
        | .ok rest => .ok ((role, rid) :: rest)

/-- Loop body of `SessionContext._compile`: walk the topological order,
emitting one `TaskDefinition` per control node and skipping data nodes. -/
def Graph.compileLoop (g : Graph) : List Nat → Except PyError (List TaskDefinition)
  | [] => .ok []
  | u :: us =>
    match g.lookupNode u with
    | some ⟨_, .control op params⟩ =>
      (match g.outEntries u (g.successors u) with
       | .error e => .error e
       | .ok outs =>
         match g.inEntries u (g.predecessors u) with
         | .error e => .error e
         | .ok ins =>
           match Graph.compileLoop g us with
           | .error e => .error e
           | .ok rest =>
             .ok ({ payload := (Payload.mk op.toInt outs (some ins) (some params)).serialize,
                    expected_output_ids := outs.map (·.2),
                    data_dependencies := ins.map (·.2) } :: rest))
    | _ => Graph.compileLoop g us

/-- `SessionContext._compile`: topologically sort the graph, then lower
each control node to a task definition. -/
def SessionContext.compile (g : Graph) : Except PyError (List TaskDefinition) :=
  match g.topoSort with
  | Option.none => .error (.networkXUnfeasible "Graph contains a cycle or graph changed during iteration")
  | some order => g.compileLoop order

/-- The `result_id` of a data node, as a pure read (defaults are never hit
on the graphs the theorems quantify over). -/
def Graph.dataResultId (g : Graph) (u : Nat) : ResultId :=
  match g.lookupNode u with
  | some ⟨_, .data rid _ _⟩ => rid
  | _ => Option.none

/-- The role tag of an edge, as a pure read. -/
def Graph.roleName (g : Graph) (u v : Nat) (key : String) : String :=
  match g.edgeAttr u v key with
  | .ok s => s
  | .error _ => ""

/-- Is the node with this identity a control node? -/
def Graph.controlUid (g : Graph) (u : Nat) : Bool :=
  match g.lookupNode u with
  | some n => n.isControl
  | Option.none => false

/-- The task definition the compiler owes one control node, stated as a
pure function of the graph: the control node's opcode and parameters, the
output-role → successor-id map, and the input-role → predecessor-id map. -/
def Graph.taskFor (g : Graph) (u : Nat) : TaskDefinition :=
  match g.lookupNode u with
  | some ⟨_, .control op params⟩ =>
    let outs := (g.successors u).map fun s => (g.roleName u s "output_name", g.dataResultId s)
    let ins := (g.predecessors u).map fun p => (g.roleName p u "input_name", g.dataResultId p)
    { payload := (Payload.mk op.toInt outs (some ins) (some params)).serialize,
      expected_output_ids := outs.map (·.2),
      data_dependencies := ins.map (·.2) }
  | _ => ⟨.null, [], []⟩

/-- `Result` (`linpyk/common/result.py`): a dataclass wrapping one numpy
array (arrays are opaque `PValue`s here). -/
structure Result where
  array : PValue

/-- `Result.serialize` is `pickle.dumps(self.array)`; pickle round-trips
exactly, so the byte string is modelled by the pickled value itself. -/
def Result.serialize (r : Result) : PValue := r.array

/-- `Result.deserialize` on a byte string (`pickle.loads`). -/
def Result.deserializeBytes (b : PValue) : Result := ⟨b⟩

/-- The in-memory state of `DummyBackend`: the `_results` dict from
external id to either the Python `None` marker ("allocated, not yet
produced") or the serialized result bytes, plus the uuid counter (see
`ResultId`). -/
structure DummyState where
  results : List (ResultId × Option PValue)
  fresh : Nat

/-- Dict update `m[k] = v` (replace or append). -/
def dictSet (m : List (ResultId × Option PValue)) (k : ResultId) (v : Option PValue) :
    List (ResultId × Option PValue) :=
  if m.any (fun kv => kv.1 == k) then
    m.map fun kv => if kv.1 == k then (k, v) else kv
  else m ++ [(k, v)]

/-- Dict read `m[k]`, `none` when the key raises `KeyError`. -/
def dictGet (m : List (ResultId × Option PValue)) (k : ResultId) : Option (Option PValue) :=
  (m.find? (fun kv => kv.1 == k)).map (·.2)

/-- `DummyBackend.request_output_id`: draw a fresh uuid and register it in
`_results` with the `None` marker. -/
def DummyBackend.requestOutputId (st : DummyState) : Nat × DummyState :=
  (st.fresh, ⟨dictSet st.results (some st.fresh) Option.none, st.fresh + 1⟩)

/-- All registered ids are below the uuid counter (trivially preserved by
the backend operations; rules out collisions of fresh draws). -/
def DummyState.WF (st : DummyState) : Prop :=
  ∀ kv ∈ st.results, ∀ k, kv.1 = some k → k < st.fresh

def PyNode.rid : PyNode → ResultId
  | ⟨_, .data rid _ _⟩ => rid
  | ⟨_, .control ..⟩ => Option.none

def PyNode.vals : PyNode → PValue
  | ⟨_, .data _ _ v⟩ => v
  | ⟨_, .control ..⟩ => .none

/-- The node object after `node.result_id = r` (a no-op on control nodes,
which the first pre-compile loop never touches). -/
def PyNode.withRid (n : PyNode) (r : ResultId) : PyNode :=
  match n with
  | ⟨uid, .data _ sh v⟩ => ⟨uid, .data r sh v⟩
  | n => n

/-- First loop of `SessionContext._pre_compile`: walk the nodes in order
and assign `node.result_id = self._backend.request_output_id()` to every
data node. -/
def assignIds : List PyNode → DummyState → List PyNode × DummyState
  | [], st => ([], st)
  | n :: ns, st =>
    match n.info with
    | .data _ _ _ =>
        let q := DummyBackend.requestOutputId st
        let r := assignIds ns q.2
        (n.withRid (some q.1) :: r.1, r.2)
    | .control .. =>
        let r := assignIds ns st
        (n :: r.1, r.2)

/-- Second loop of `SessionContext._pre_compile`: collect
`{node.result_id: Result(node.values)}` over the data nodes with in-degree
0 and out-degree > 0. -/
def collectSeeds (g : Graph) : List (ResultId × Result) :=
  (g.nodes.filter fun n =>
      n.isData && (g.inDegree n.uid == 0) && decide (0 < g.outDegree n.uid)).map
    fun n => (n.rid, ⟨n.vals⟩)

/-- `SessionContext._pre_compile` against the `DummyBackend`: assign one
fresh external id per data node, then collect the seed results. -/
def SessionContext.preCompile (g : Graph) (st : DummyState) :
    (Graph × List (ResultId × Result)) × DummyState :=
  let (ns, st₁) := assignIds g.nodes st
  let g' : Graph := { nodes := ns, edges := g.edges }
  ((g', collectSeeds g'), st₁)

instance (g : Graph) : Decidable g.WF := by
  unfold Graph.WF
  infer_instance

instance (g : Graph) : Decidable g.Bipartite := by
  unfold Graph.Bipartite
  exact List.decidableBAll _ _

instance (g : Graph) : Decidable g.EdgesTagged := by
  unfold Graph.EdgesTagged
  exact List.decidableBAll _ _

/-- A minimal finished graph for the C1 witness: one `POTRF` control node
with one input tile and one output tile, ids already assigned. -/
def gWitness : Graph :=
  { nodes := [⟨0, .data (some 10) [2, 2] .none⟩,
              ⟨1, .control .POTRF [("lower", .int 1)]⟩,
              ⟨2, .data (some 11) [2, 2] .none⟩],
    edges := [⟨0, 1, [("input_name", "a")]⟩, ⟨1, 2, [("output_name", "l")]⟩] }

mutual
/-- Python `==` on values, as far as the repository compares them
(structural; the numeric cross-type cases `1 == 1.0` never arise here). -/
def PValue.beq : PValue → PValue → Bool
  | .none, .none => true
  | .bool a, .bool b => a == b
  | .int a, .int b => a == b
  | .float a, .float b => a == b
  | .str a, .str b => a == b
  | .list a, .list b => PValue.beqList a b
  | .tuple a, .tuple b => PValue.beqList a b
  | .dict a, .dict b => PValue.beqDict a b
  | _, _ => false

def PValue.beqList : List PValue → List PValue → Bool
  | [], [] => true
  | a :: as, b :: bs => PValue.beq a b && PValue.beqList as bs
  | _, _ => false

def PValue.beqDict : List (String × PValue) → List (String × PValue) → Bool
  | [], [] => true
  | (k, a) :: as, (k', b) :: bs => k == k' && PValue.beq a b && PValue.beqDict as bs
  | _, _ => false
end

/-- `v[i]` on a Python sequence (`TypeError` on non-sequences,
`IndexError` out of range — both surfaced as errors). -/
def PValue.getItem (v : PValue) (i : Nat) : Except PyError PValue :=
  match v with
  | .list xs | .tuple xs =>
    match xs.get? i with
    | some x => .ok x
    | Option.none => .error (.valueError "IndexError: index out of range")
  | _ => .error (.typeError "object is not subscriptable")

/-- `self._options[k]`: subscripting `None` is a `TypeError`, a missing
key a `KeyError`. -/
def optGet (opts : Option (List (String × PValue))) (k : String) : Except PyError PValue :=
  match opts with
  | Option.none => .error (.typeError "NoneType is not subscriptable")
  | some m =>
    match m.lookup k with
    | some v => .ok v
    | Option.none => .error (.keyError k)

/-- `**self._options`: unpacking `None` is a `TypeError`. -/
def kwArgs (opts : Option (List (String × PValue))) :
    Except PyError (List (String × PValue)) :=
  match opts with
  | Option.none => .error (.typeError "argument after ** must be a mapping")
  | some m => .ok m

/-- `self._inputs[k]`. -/
def inputGet (m : List (String × PValue)) (k : String) : Except PyError PValue :=
  match m.lookup k with
  | some v => .ok v
  | Option.none => .error (.keyError k)

/-- The numeric kernels (`scipy.linalg.blas/lapack`, `numpy`) invoked by
opcode.  They are external collaborators (spec §1: "treated as an opaque
numeric library"), so the embedding is parameterised over them; `dpotrf`
returns the factor together with its `info` status. -/
structure Kernels where
  dpotrf : PValue → List (String × PValue) → PValue × Int
  tril : PValue → PValue
  dtrsm : PValue → PValue → List (String × PValue) → PValue
  dsyrk : PValue → PValue → List (String × PValue) → PValue
  dgemm : PValue → PValue → PValue → List (String × PValue) → PValue
  npEye : PValue → PValue
  npZeros : PValue → PValue
  npDiagRandom : PValue → PValue
  npOnes : List (String × PValue) → PValue

/-- `WorkerProcessingInstance` (`linpyk/common/processing.py`) after
`__init__`: decoded opcode, output-name map, resolved inputs and options.
The logger is diagnostic only and not modelled. -/
structure WorkerProcessingInstance where
  opcode : OpCode
  output_names : List (String × ResultId)
  inputs : List (String × PValue)
  options : Option (List (String × PValue))

/-- The input-resolution loop of `WorkerProcessingInstance.__init__`:
`Result.deserialize(data_dependencies[uuid]).array` for each declared
dependency name. -/
def resolveInputs (data_dependencies : List (ResultId × PValue)) :
    List (String × ResultId) → Except PyError (List (String × PValue))
  | [] => .ok []
  | (name, uuid) :: rest =>
    match data_dependencies.find? (fun kv => kv.1 == uuid) with
    | Option.none => .error (.keyError "data dependency")
    | some kv =>
      match resolveInputs data_dependencies rest with
      | .error e => .error e
      | .ok r => .ok ((name, (Result.deserializeBytes kv.2).array) :: r)

/-- `WorkerProcessingInstance.__init__`: decode the payload, coerce the
opcode, resolve inputs when both the declared dependency map and the
provided dependency dict are truthy (non-`None` and non-empty), and check
the declared output ids against the expected ones.  (The source's
`[*values] in expected_output_ids` disjunct compares a list against id
elements and can never hold; the effective check is the `==` disjunct.) -/
def WorkerProcessingInstance.init (payload : JValue) (expected_output_ids : List ResultId)
    (data_dependencies : List (ResultId × PValue)) :
    Except PyError WorkerProcessingInstance :=
  match Payload.deserialize payload with
  | .error e => .error e
  | .ok p =>
    match OpCode.ofInt p.opcode with
    | .error e => .error e
    | .ok opcode =>
      let resolved : Except PyError (List (String × PValue)) :=
        match p.dependency_names, data_dependencies with
        | some (d :: ds), _ :: _ => resolveInputs data_dependencies (d :: ds)
        | _, _ => .ok []
      match resolved with
      | .error e => .error e
      | .ok inputs =>
        if p.expected_output_names.map (·.2) = expected_output_ids then
          .ok ⟨opcode, p.expected_output_names, inputs, p.params⟩
        else
          .error (.valueError "Invalid payload outputs ids")

/-- `WorkerProcessingInstance.process`: dispatch on opcode, run the
selected kernel, and return the named outputs. -/
def WorkerProcessingInstance.process (w : WorkerProcessingInstance) (kern : Kernels) :
    Except PyError (List (String × Result)) :=
  match w.opcode with
  | .DRGM =>
    match optGet w.options "size" with
    | .error e => .error e
    | .ok size =>
      match optGet w.options "idx" with
      | .error e => .error e
      | .ok idx =>
        match optGet w.options "gen" with
        | .error e => .error e
        | .ok gen =>
          if gen.beq (.str "eye") then
            match idx.getItem 0 with
            | .error e => .error e
            | .ok i0 =>
              match idx.getItem 1 with
              | .error e => .error e
              | .ok i1 =>
                .ok [("a", ⟨if i0.beq i1 then kern.npEye size else kern.npZeros size⟩)]
          else if gen.beq (.str "diag") then
            match idx.getItem 0 with
            | .error e => .error e
            | .ok i0 =>
              match idx.getItem 1 with
              | .error e => .error e
              | .ok i1 =>
                .ok [("a", ⟨if i0.beq i1 then kern.npDiagRandom size else kern.npZeros size⟩)]
          else
            .error (.runtimeError "Unhandled matrix generation")
  | .POTRF =>
    match inputGet w.inputs "a" with
    | .error e => .error e
    | .ok a =>
      match kwArgs w.options with
      | .error e => .error e
      | .ok opts =>
        let rq := kern.dpotrf a opts
        if rq.2 ≠ 0 then
          .error (.runtimeError "Cholesky factorization failed.")
        else
          .ok [("l", ⟨kern.tril rq.1⟩)]
  | .TRSM =>
    match inputGet w.inputs "a" with
    | .error e => .error e
    | .ok a =>
      match inputGet w.inputs "b" with
      | .error e => .error e
      | .ok b =>
        match kwArgs w.options with
        | .error e => .error e
        | .ok opts => .ok [("x", ⟨kern.dtrsm a b opts⟩)]
  | .SYRK =>
    match inputGet w.inputs "a" with
    | .error e => .error e
    | .ok a =>
      match inputGet w.inputs "c" with
      | .error e => .error e
      | .ok c =>
        match kwArgs w.options with
        | .error e => .error e
        | .ok opts => .ok [("c", ⟨kern.dsyrk a c opts⟩)]
  | .GEMM =>
    match inputGet w.inputs "a" with
    | .error e => .error e
    | .ok a =>
      match inputGet w.inputs "b" with
      | .error e => .error e
      | .ok b =>
        match inputGet w.inputs "c" with
        | .error e => .error e
        | .ok c =>
          match kwArgs w.options with
          | .error e => .error e
          | .ok opts => .ok [("c", ⟨kern.dgemm a b c opts⟩)]
  | .ONES =>
    match kwArgs w.options with
    | .error e => .error e
    | .ok opts => .ok [("o", ⟨kern.npOnes opts⟩)]

/-- `WorkerProcessingInstance.get_results`: key each produced output by
its external id from the payload's output-name map.  (`if result:` is
always true for a `Result` dataclass instance.) -/
def WorkerProcessingInstance.getResults (w : WorkerProcessingInstance) :
    List (String × Result) → Except PyError (List (ResultId × PValue))
  | [] => .ok []
  | (name, r) :: rest =>
    match w.output_names.lookup name with
    | Option.none => .error (.keyError name)
    | some rid =>
      match w.getResults rest with
      | .error e => .error e
      | .ok xs => .ok ((rid, r.serialize) :: xs)

/-- The dependency-resolution loop of `DummyBackend.submit_tasks` for one
task: look each declared input id up in `_results`; an id whose entry is
still the `None` marker raises `BackendError`, an id never allocated
raises `KeyError`. -/
def resolveDeps (results : List (ResultId × Option PValue)) :
    List ResultId → Except PyError (List (ResultId × PValue))
  | [] => .ok []
  | d :: ds =>
    match dictGet results d with
    | Option.none => .error (.keyError "result id")
    | some Option.none =>
        .error (.backendError
          "A task with unresolved dependencies has been encountered. Perhaps the tasks were not submitted in topological order.")
    | some (some b) =>
      match resolveDeps results ds with
      | .error e => .error e
      | .ok r => .ok ((d, b) :: r)

/-- Write every produced output id into `_results`. -/
def writeResults (m : List (ResultId × Option PValue)) :
    List (ResultId × PValue) → List (ResultId × Option PValue)
  | [] => m
  | (k, v) :: rest => writeResults (dictSet m k (some v)) rest

/-- One iteration of `DummyBackend.submit_tasks`: resolve the declared
dependencies, build a `WorkerProcessingInstance`, run it, and store its
results. -/
def DummyBackend.processTask (kern : Kernels) (t : TaskDefinition) (st : DummyState) :
    EStateM.Result PyError DummyState Unit :=
  match resolveDeps st.results t.data_dependencies with
  | .error e => .error e st
  | .ok deps =>
    match WorkerProcessingInstance.init t.payload t.expected_output_ids deps with
    | .error e => .error e st
    | .ok inst =>
      match inst.process kern with
      | .error e => .error e st
      | .ok outs =>
        match inst.getResults outs with
        | .error e => .error e st
        | .ok pairs => .ok () ⟨writeResults st.results pairs, st.fresh⟩

/-- `DummyBackend.submit_tasks`: execute the given tasks strictly in the
order given, synchronously, stopping at the first error. -/
def DummyBackend.submitTasks (kern : Kernels) :
    List TaskDefinition → DummyState → EStateM.Result PyError DummyState Unit
  | [], st => .ok () st
  | t :: ts, st =>
    match DummyBackend.processTask kern t st with
    | .ok _ st' => DummyBackend.submitTasks kern ts st'
    | .error e st' => .error e st'

/-- `DummyBackend.submit_results`: `self._results[result_id] =
result.serialize()` for each entry.  The source wraps the assignment in
`try: ... except KeyError: raise BackendError("Result submitted before
being created.")`, but a Python dict item *assignment* inserts missing
keys and never raises `KeyError`, so the except branch is dead code and
the store is unconditional. -/
def DummyBackend.submitResults :
    List (ResultId × Result) → DummyState → DummyState
  | [], st => st
  | (k, r) :: rest, st =>
      DummyBackend.submitResults rest ⟨dictSet st.results k (some r.serialize), st.fresh⟩

/-- `DummyBackend.get_result`:
`Result.deserialize(self._results[result_id])` — a missing key raises
`KeyError`, and an allocated-but-never-produced entry stores Python
`None`, on which `pickle.loads` raises `TypeError`. -/
def DummyBackend.getResult (rid : ResultId) (st : DummyState) :
    EStateM.Result PyError DummyState Result :=
  match dictGet st.results rid with
  | Option.none => .error (.keyError "result id") st
  | some Option.none =>
      .error (.typeError "a bytes-like object is required, not NoneType") st
  | some (some b) => .ok (Result.deserializeBytes b) st

/-- `SessionContext.get_data_node` against the `DummyBackend`:
`wait_for_availability` returns an empty `ResultAvailability`, which is
available, so the fetch always proceeds to `get_result`; on success the
array is written into the node's `values` slot.  (The `result is None`
branch that raises `RuntimeError` is unreachable with this backend: its
`get_result` raises instead of returning `None`.) -/
def SessionContext.getDataNode (n : PyNode) (st : DummyState) :
    EStateM.Result PyError DummyState PyNode :=
  match DummyBackend.getResult n.rid st with
  | .error e st' => .error e st'
  | .ok r st' =>
    .ok ⟨n.uid, match n.info with
                | .data rid sh _ => .data rid sh r.array
                | i => i⟩ st'

/-- `ArmoniKGraph._check_integrity`: raise `GraphIntegrityError` when the
graph is not acyclic, then when some edge joins two nodes of the same
kind.  This method is defined in `linpyk/graph/graph.py` but is never
called anywhere in the repository. -/
def Graph.checkIntegrity (g : Graph) : Except PyError Unit :=
  if (g.topoSort).isNone then
    .error (.graphIntegrityError "The graph is not directed acyclic.")
  else
    match g.edges.find? (fun e => g.sameKindEdge? e) with
    | some _ => .error (.graphIntegrityError "The graph is not bipartite")
    | Option.none => .ok ()

/-- `SessionContext.run` against the `DummyBackend`:
`submit_results(_pre_compile(g))` then `submit_tasks(_compile(g))` — and
nothing else: no integrity check of any kind is invoked. -/
def SessionContext.run (kern : Kernels) (g : Graph) (st : DummyState) :
    EStateM.Result PyError DummyState Graph :=
  let pc := SessionContext.preCompile g st
  let st₂ := DummyBackend.submitResults pc.1.2 pc.2
  match SessionContext.compile pc.1.1 with
  | .error e => .error e st₂
  | .ok tasks =>
    match DummyBackend.submitTasks kern tasks st₂ with
    | .ok _ st₃ => .ok pc.1.1 st₃
    | .error e st₃ => .error e st₃

/-- The graph-construction state: the process-wide working graph
(`linpyk.graph.graph.current_graph`) plus the allocator for fresh node
object identities (Python object creation order). -/
structure BuildState where
  graph : Graph
  next : Nat

/-- `add_edges_from`: add the listed edges (and any missing endpoint
nodes) in order. -/
def Graph.addEdgesFrom (g : Graph) :
    List (PyNode × PyNode × List (String × String)) → Graph
  | [] => g
  | (n, m, attrs) :: rest => (g.addEdge n m attrs).addEdgesFrom rest

/-- `tile_trsm` (`linpyk/graph/ops/blas.py`): create the output tile
`x = TileNode(b.shape)` and a `TRSM` control node carrying the numeric
parameters, then wire `a -> control -> x` and `b -> control` with their
role tags.  Reading `.shape` on a non-data node raises `AttributeError`. -/
def tile_trsm (alpha : Rat) (a b : PyNode) (side lower trans_a diag overwrite_b : Int)
    (st : BuildState) : EStateM.Result PyError BuildState PyNode :=
  match b.info with
  | .control .. => .error (.attributeError "shape") st
  | .data _ bshape _ =>
    let x : PyNode := ⟨st.next, .data Option.none bshape .none⟩
    let control : PyNode := ⟨st.next + 1, .control .TRSM
      [("alpha", .float alpha), ("side", .int side), ("lower", .int lower),
       ("trans_a", .int trans_a), ("diag", .int diag), ("overwrite_b", .int overwrite_b)]⟩
    .ok x ⟨st.graph.addEdgesFrom
        [(a, control, [("input_name", "a")]),
         (b, control, [("input_name", "b")]),
         (control, x, [("output_name", "x")])], st.next + 2⟩

/-- `tile_syrk`: output tile `x = TileNode(a.shape)`, a `SYRK` control
node, and edges `a -> control`, `c -> control`, `control -> x`. -/
def tile_syrk (alpha : Rat) (a c : PyNode) (beta : Rat) (trans lower overwrite_c : Int)
    (st : BuildState) : EStateM.Result PyError BuildState PyNode :=
  match a.info with
  | .control .. => .error (.attributeError "shape") st
  | .data _ ashape _ =>
    let x : PyNode := ⟨st.next, .data Option.none ashape .none⟩
    let control : PyNode := ⟨st.next + 1, .control .SYRK
      [("alpha", .float alpha), ("beta", .float beta), ("trans", .int trans),
       ("lower", .int lower), ("overwrite_c", .int overwrite_c)]⟩
    .ok x ⟨st.graph.addEdgesFrom
        [(a, control, [("input_name", "a")]),
         (c, control, [("input_name", "c")]),
         (control, x, [("output_name", "c")])], st.next + 2⟩

/-- `tile_gemm`: output tile `x = TileNode(a.shape)`, a `GEMM` control
node, edges `a -> control`, `b -> control`, `control -> x`, and — only
when the optional `c` operand is supplied — one extra edge
`c -> control` tagged `input_name: "c"`. -/
def tile_gemm (alpha : Rat) (a b : PyNode) (beta : Rat) (c : Option PyNode)
    (trans_a trans_b overwrite_c : Int) (st : BuildState) :
    EStateM.Result PyError BuildState PyNode :=
  match a.info with
  | .control .. => .error (.attributeError "shape") st
  | .data _ ashape _ =>
    let x : PyNode := ⟨st.next, .data Option.none ashape .none⟩
    let control : PyNode := ⟨st.next + 1, .control .GEMM
      [("alpha", .float alpha), ("beta", .float beta), ("trans_a", .int trans_a),
       ("trans_b", .int trans_b), ("overwrite_c", .int overwrite_c)]⟩
    let g₁ := st.graph.addEdgesFrom
        [(a, control, [("input_name", "a")]),
         (b, control, [("input_name", "b")]),
         (control, x, [("output_name", "c")])]
    match c with
    | some cn => .ok x ⟨g₁.addEdge cn control [("input_name", "c")], st.next + 2⟩
    | Option.none => .ok x ⟨g₁, st.next + 2⟩

/-- `tile_potrf` (`linpyk/graph/ops/lapack.py`): a `POTRF` control node
(created first), the output tile `l = TileNode(a.shape)`, and edges
`a -> control -> l`. -/
def tile_potrf (a : PyNode) (lower clean overwrite_a : Int) (st : BuildState) :
    EStateM.Result PyError BuildState PyNode :=
  match a.info with
  | .control .. => .error (.attributeError "shape") st
  | .data _ ashape _ =>
    let control : PyNode := ⟨st.next, .control .POTRF
      [("lower", .int lower), ("clean", .int clean), ("overwrite_a", .int overwrite_a)]⟩
    let l : PyNode := ⟨st.next + 1, .data Option.none ashape .none⟩
    .ok l ⟨st.graph.addEdgesFrom
        [(a, control, [("input_name", "a")]),
         (control, l, [("output_name", "l")])], st.next + 2⟩

/-- `DTArray` (`linpyk/graph/array.py`): a grid of tile-node handles.
The diagnostic label is not modelled; cells are an association list from
index to the referenced node object. -/
structure DTArray where
  shape : List Nat
  tiles : List ((Nat × Nat) × PyNode)

/-- `a[i, j]`.  An unset cell holds Python `None`; its use downstream
fails, modelled as the error surfacing at the access. -/
def DTArray.getItem (a : DTArray) (i j : Nat) : Except PyError PyNode :=
  match a.tiles.find? (fun kv => kv.1 == (i, j)) with
  | some kv => .ok kv.2
  | Option.none => .error (.typeError "cell is None")

/-- Cell update for the tile grid. -/
def tilesSet (m : List ((Nat × Nat) × PyNode)) (k : Nat × Nat) (n : PyNode) :
    List ((Nat × Nat) × PyNode) :=
  if m.any (fun kv => kv.1 == k) then
    m.map fun kv => if kv.1 == k then (k, n) else kv
  else m ++ [(k, n)]

/-- `a[i, j] = tile`: relabel (diagnostic only, not modelled), register
the node into the working graph (`add_node`), and store the handle. -/
def DTArray.setItem (a : DTArray) (i j : Nat) (n : PyNode) (st : BuildState) :
    DTArray × BuildState :=
  (⟨a.shape, tilesSet a.tiles (i, j) n⟩, ⟨st.graph.addNode n, st.next⟩)

/-- Modelled from the spec: `Empty`, imported by
`linpyk/algorithms/dense.py` from `linpyk.graph`, whose `__init__.py` is
not under `src/`.  Spec §3: a `DTArray` may have unset cells ("sparse
... storage"), and nodes are created only by operator builders — so
`Empty(shape, label)` is a `DTArray` with every cell unset, touching no
graph state.  (Named `EmptyDTA` because `Empty` is taken by Lean's core
type of the same name.) -/
def EmptyDTA (shape : List Nat) : DTArray := ⟨shape, []⟩

/-- An error-propagating `for` loop over a list of indices, threading an
accumulator and the construction state. -/
def forE {α : Type} (f : Nat → α → BuildState → EStateM.Result PyError BuildState α) :
    List Nat → α → BuildState → EStateM.Result PyError BuildState α
  | [], acc, st => .ok acc st
  | i :: is, acc, st =>
    match f i acc st with
    | .error e st' => .error e st'
    | .ok acc' st' => forE f is acc' st'

/-- One `k`-step of the blocked Cholesky loop
(`linpyk/algorithms/dense.py`): factorize the diagonal tile, solve the
sub-diagonal column tiles, then update the trailing sub-matrix
(symmetric rank update on the diagonal, general multiply off it). -/
def choleskyK (p k : Nat) (acc : DTArray × List DTArray) (st : BuildState) :
    EStateM.Result PyError BuildState (DTArray × List DTArray) :=
  let l := acc.1
  let as := acc.2
  let ak := as.getD k (EmptyDTA [])
  match ak.getItem 0 0 with
  | .error e => .error e st
  | .ok akk =>
    match tile_potrf akk 1 0 0 st with
    | .error e st₁ => .error e st₁
    | .ok lkk st₁ =>
      let ls₁ := l.setItem k k lkk st₁
      match forE (fun i l' st' =>
          match l'.getItem k k with
          | .error e => .error e st'
          | .ok lkk' =>
            match ak.getItem (i - k) 0 with
            | .error e => .error e st'
            | .ok bik =>
              match tile_trsm 1 lkk' bik 1 1 1 0 0 st' with
              | .error e st'' => .error e st''
              | .ok xnode st'' =>
                .ok (l'.setItem i k xnode st'').1 (l'.setItem i k xnode st'').2)
        (List.range' (k + 1) (p - (k + 1))) ls₁.1 ls₁.2 with
      | .error e st₂ => .error e st₂
      | .ok l₂ st₂ =>
        match forE (fun j as' st' =>
            forE (fun i as'' st'' =>
                let akc := as''.getD k (EmptyDTA [])
                if i == j then
                  match l₂.getItem i k with
                  | .error e => .error e st''
                  | .ok lik =>
                    match akc.getItem (i - k) (j - k) with
                    | .error e => .error e st''
                    | .ok cik =>
                      match tile_syrk (-1) lik cik 1 0 1 0 st'' with
                      | .error e st₃ => .error e st₃
                      | .ok xnode st₃ =>
                        let tgt := as''.getD (k + 1) (EmptyDTA [])
                        let ts := tgt.setItem (i - k - 1) (j - k - 1) xnode st₃
                        .ok (as''.set (k + 1) ts.1) ts.2
                else
                  match l₂.getItem i k with
                  | .error e => .error e st''
                  | .ok lik =>
                    match l₂.getItem j k with
                    | .error e => .error e st''
                    | .ok ljk =>
                      match akc.getItem (i - k) (j - k) with
                      | .error e => .error e st''
                      | .ok cik =>
                        match tile_gemm (-1) lik ljk 1 (some cik) 0 1 0 st'' with
                        | .error e st₃ => .error e st₃
                        | .ok xnode st₃ =>
                          let tgt := as''.getD (k + 1) (EmptyDTA [])
                          let ts := tgt.setItem (i - k - 1) (j - k - 1) xnode st₃
                          .ok (as''.set (k + 1) ts.1) ts.2)
              (List.range' j (p - j)) as' st')
          (List.range' (k + 1) (p - (k + 1))) as st₂ with
        | .error e st₃ => .error e st₃
        | .ok as₃ st₃ => .ok (l₂, as₃) st₃

/-- `cholesky` (`linpyk/algorithms/dense.py`): the three shape
preconditions are checked up front — each raising `ValueError` (the
spec's "ConstructionError") before anything is constructed — then the
right-looking blocked factorization is emitted into the working graph. -/
def cholesky (a : DTArray) (st : BuildState) :
    EStateM.Result PyError BuildState DTArray :=
  if a.shape.length ≠ 2 then .error (.valueError "2D-array required.") st
  else if a.shape[0]! ≠ a.shape[1]! then .error (.valueError "Squared matrix required.") st
  else
    let p := a.shape[0]!
    if p < 1 then
      .error (.valueError ("Invalid matrix shape " ++ toString a.shape ++ ".")) st
    else
      let l := EmptyDTA a.shape
      let as := a :: (List.range' 1 (p - 1)).map (fun k => EmptyDTA [p - k, p - k])
      match forE (choleskyK p) (List.range p) (l, as) st with
      | .error e st' => .error e st'
      | .ok acc st' => .ok acc.1 st'

/-- The tile-creation loop of `remote_dtarray_generator`
(`linpyk/graph/ops/gen.py`): `a[i, j] = TileNode((tile_size, tile_size))`
for every cell, registering each tile into the working graph. -/
def genFill (tile_size : Nat) :
    List (Nat × Nat) → DTArray → BuildState → DTArray × BuildState
  | [], a, st => (a, st)
  | (i, j) :: rest, a, st =>
    let tile : PyNode := ⟨st.next, .data Option.none [tile_size, tile_size] .none⟩
    let q := DTArray.setItem a i j tile ⟨st.graph, st.next + 1⟩
    genFill tile_size rest q.1 q.2

/-- The control-node comprehension of `remote_dtarray_generator`: one
`DRGM` control node per tile, carrying the generation kind, tile size
and the tile index as a Python tuple. -/
def genControls (tile_size : Nat) (generate : String) :
    List ((Nat × Nat) × PyNode) → Nat → List ((Nat × Nat) × PyNode) × Nat
  | [], next => ([], next)
  | (idx, _) :: rest, next =>
    let ctrl : PyNode := ⟨next, .control .DRGM
      [("gen", .str generate), ("size", .int (tile_size : Int)),
       ("idx", .tuple [.int (idx.1 : Int), .int (idx.2 : Int)])]⟩
    let q := genControls tile_size generate rest (next + 1)
    ((idx, ctrl) :: q.1, q.2)

/-- The edge loop of `remote_dtarray_generator`: `control -> a[idx]`
tagged `output_name: "a"` for every tile.  (Every cell was just set, so
the unset-cell fallback is unreachable.) -/
def addGenEdges (a : DTArray) : List ((Nat × Nat) × PyNode) → Graph → Graph
  | [], g => g
  | (idx, ctrl) :: rest, g =>
    match a.tiles.find? (fun kv => kv.1 == idx) with
    | some kv => addGenEdges a rest (g.addEdge ctrl kv.2 [("output_name", "a")])
    | Option.none => addGenEdges a rest g

/-- `remote_dtarray_generator`: create the `n_dim × n_dim` tile grid,
one `DRGM` control node per tile, and wire `control -> tile` edges. -/
def remote_dtarray_generator (n_dim tile_size : Nat) (generate : String)
    (st : BuildState) : DTArray × BuildState :=
  let idxs := (List.range n_dim).flatMap (fun i => (List.range n_dim).map (fun j => (i, j)))
  let q1 := genFill tile_size idxs ⟨[n_dim, n_dim], []⟩ st
  let q2 := genControls tile_size generate q1.1.tiles q1.2.next
  (q1.1, ⟨addGenEdges q1.1 q2.1 q1.2.graph, q2.2⟩)

/-- A graph violating the bipartite invariant: two data nodes joined by an
edge. -/
def gBad : Graph :=
  { nodes := [⟨0, .data Option.none [] .none⟩, ⟨1, .data Option.none [] .none⟩],
    edges := [⟨0, 1, [("input_name", "a")]⟩] }

/-- The backend state right after one `request_output_id`: the id is
allocated, its entry still the `None` marker. -/
def declaredNotUploaded : DummyState := ⟨[(some 0, Option.none)], 1⟩

/-- The data node holding that allocated id. -/
def seedNode : PyNode := ⟨0, .data (some 0) [] .none⟩

/-- A `MULTIPLY` (GEMM) task payload declaring inputs `a` and `b` but no
`c`, exactly as compiled from a `tile_gemm` call without the optional `c`
operand. -/
def gemmPayloadNoC : JValue :=
  (Payload.mk OpCode.GEMM.toInt [("c", some 2)] (some [("a", some 0), ("b", some 1)])
    (some [("alpha", .float (-1)), ("beta", .float 1), ("trans_b", .int 1)])).serialize

/-- A trivial kernel oracle for the C6 witness. -/
def kern0 : Kernels :=
  ⟨fun _ _ => (.none, 0), fun v => v, fun _ _ _ => .none, fun _ _ _ => .none,
   fun _ _ _ _ => .none, fun _ => .none, fun _ => .none, fun _ => .none, fun _ => .none⟩

/-- A node object is consistently placed w.r.t. a graph: either the graph
already holds exactly this object under its identity, or the identity is
absent.  (Distinct Python objects have distinct identities, so this holds
for every node an operator builder ever receives.) -/
def Graph.NodePlace (g : Graph) (n : PyNode) : Prop :=
  g.lookupNode n.uid = some n ∨ n.uid ∉ g.uids

/-- The construction invariant: the working graph is well formed and
bipartite, and every node identity is below the fresh-identity counter. -/
def BuildInv (st : BuildState) : Prop :=
  st.graph.WF ∧ st.graph.Bipartite ∧ ∀ n ∈ st.graph.nodes, n.uid < st.next

/-- A node handle an operator builder may legally receive: an existing
object identity, consistently placed. -/
def BuildState.ArgOK (st : BuildState) (a : PyNode) : Prop :=
  a.uid < st.next ∧ st.graph.NodePlace a

/-- Object-identity coherence: any two node occurrences with the same
identity are the same object (true of Python object references). -/
def UidConsistent (ns : List PyNode) : Prop :=
  ∀ p ∈ ns, ∀ q ∈ ns, p.uid = q.uid → p = q

instance (st : BuildState) : Decidable (BuildInv st) := by
  unfold BuildInv
  infer_instance

mutual
theorem PValue.toJson_toPy_of_jsonStable :
    ∀ v : PValue, v.jsonStable = true → v.toJson.toPy = v
  | .none, _ => rfl
  | .bool _, _ => rfl
  | .int _, _ => rfl
  | .float _, _ => rfl
  | .str _, _ => rfl
  | .list xs, h => by
      simp only [PValue.toJson, JValue.toPy]
      rw [PValue.toJsonList_toPyList_of_jsonStable xs (by simpa [PValue.jsonStable] using h)]
  | .dict xs, h => by
      simp only [PValue.toJson, JValue.toPy]
      rw [PValue.toJsonDict_toPyDict_of_jsonStable xs (by simpa [PValue.jsonStable] using h)]

theorem PValue.toJsonList_toPyList_of_jsonStable :
    ∀ xs : List PValue, PValue.jsonStableList xs = true →
      JValue.toPyList (PValue.toJsonList xs) = xs
  | [], _ => rfl
  | x :: xs, h => by
      simp only [PValue.jsonStableList, Bool.and_eq_true] at h
      simp only [PValue.toJsonList, JValue.toPyList]
      rw [PValue.toJson_toPy_of_jsonStable x h.1,
        PValue.toJsonList_toPyList_of_jsonStable xs h.2]

theorem PValue.toJsonDict_toPyDict_of_jsonStable :
    ∀ xs : List (String × PValue), PValue.jsonStableDict xs = true →
      JValue.toPyDict (PValue.toJsonDict xs) = xs
  | [], _ => rfl
  | (k, v) :: xs, h => by
      simp only [PValue.jsonStableDict, Bool.and_eq_true] at h
      simp only [PValue.toJsonDict, JValue.toPyDict]
      rw [PValue.toJson_toPy_of_jsonStable v h.1,
        PValue.toJsonDict_toPyDict_of_jsonStable xs h.2]
end

theorem ResultId.toJson_toResultId (i : ResultId) :
    JValue.toResultId (ResultId.toJson i) = .ok i := by
  cases i <;> simp [ResultId.toJson, JValue.toResultId]

theorem JValue.toIdEntries_of_map (xs : List (String × ResultId)) :
    JValue.toIdEntries (xs.map fun kv => (kv.1, ResultId.toJson kv.2)) = .ok xs := by
  induction xs with
  | nil => rfl
  | cons kv rest ih =>
      simp [JValue.toIdEntries, ResultId.toJson_toResultId, ih]

/-- Helper for C4: round-trip for the two id dictionaries. -/
theorem JValue.toOptIdDict_of_map (m : Option (List (String × ResultId))) :
    JValue.toOptIdDict (match m with
      | Option.none => JValue.null
      | some xs => .obj (xs.map fun kv => (kv.1, ResultId.toJson kv.2))) = .ok m := by
  cases m with
  | none => rfl
  | some xs =>
      simp [JValue.toOptIdDict, JValue.toIdDict, JValue.toIdEntries_of_map, Except.map]

/-- C4 (amended): `Payload.deserialize (Payload.serialize x) = x` holds for
every payload — with any opcode, and with the optional dependency and
parameter maps present, empty or absent — *provided* every parameter value
is tuple-free (`paramsJsonStable`).  The id maps and the opcode always
survive; only tuple-valued parameters are rewritten (see the
counterexample). -/
theorem payload_roundtrip_of_paramsJsonStable (p : Payload)
    (h : p.paramsJsonStable = true) :
    Payload.deserialize (Payload.serialize p) = .ok p := by
  obtain ⟨op, outs, deps, params⟩ := p
  have hdeps := JValue.toOptIdDict_of_map deps
  cases params with
  | none =>
      simp only [Payload.serialize, Payload.deserialize, List.lookup] at *
      simp only [show (("opcode" == "opcode") = true) from rfl] at *
      simp [JValue.toOptParams, JValue.toIdDict, JValue.toIdEntries_of_map,
        hdeps, Except.bind, Except.map]
  | some m =>
      simp only [Payload.paramsJsonStable] at h
      simp only [Payload.serialize, Payload.deserialize, List.lookup] at *
      simp [JValue.toOptParams, JValue.toIdDict, JValue.toIdEntries_of_map,
        hdeps, Except.bind, Except.map, PValue.toJsonDict_toPyDict_of_jsonStable m h]

/-- C4 (counterexample): the round-trip claim is false as stated.  For the
concrete `DRGM` payload above — an actual payload of this system, since
`remote_dtarray_generator` stores the tile index as a tuple — `json.dumps`
writes the tuple as a JSON array and `json.loads` returns a list, so
`Payload.deserialize (Payload.serialize x) ≠ x`. -/
theorem payload_roundtrip_counterexample :
    Payload.deserialize (Payload.serialize drgmPayload) ≠ Except.ok drgmPayload := by
  have hval : Payload.deserialize (Payload.serialize drgmPayload) =
      Except.ok ⟨1, [("a", some 0)], Option.none,
        some [("gen", .str "eye"), ("size", .int 2), ("idx", .list [.int 0, .int 0])]⟩ := rfl
  rw [hval]
  intro h
  simp only [Except.ok.injEq, drgmPayload, Payload.mk.injEq, Option.some.injEq,
    List.cons.injEq, Prod.mk.injEq] at h
  exact absurd h.2.2.2.2.2.1.2 (by simp)

/-- Witness for C4's amended theorem at a concrete payload with empty
optional maps. -/
theorem payload_roundtrip_witness :
    Payload.paramsJsonStable emptyMapsPayload = true ∧
      Payload.deserialize (Payload.serialize emptyMapsPayload) = Except.ok emptyMapsPayload :=
  ⟨rfl, payload_roundtrip_of_paramsJsonStable emptyMapsPayload rfl⟩

theorem topoAux_perm (edges : List Edge) :
    ∀ (fuel : Nat) (done pending l : List Nat),
      topoAux edges fuel done pending = some l → l.Perm pending := by
  intro fuel
  induction fuel with
  | zero =>
      intro done pending l h
      cases pending with
      | nil => simp only [topoAux, Option.some.injEq] at h; simp [← h]
      | cons p ps => simp [topoAux] at h
  | succ n ih =>
      intro done pending l h
      cases pending with
      | nil => simp only [topoAux, Option.some.injEq] at h; simp [← h]
      | cons p ps =>
          simp only [topoAux] at h
          cases hfind : (p :: ps).find? (nodeReady edges done) with
          | none => simp [hfind] at h
          | some u =>
              simp only [hfind] at h
              cases hrec : topoAux edges n (u :: done) ((p :: ps).erase u) with
              | none => simp [hrec] at h
              | some l' =>
                  simp only [hrec, Option.map_some', Option.some.injEq] at h
                  have hu : u ∈ p :: ps := List.mem_of_find?_eq_some hfind
                  have hperm := ih (u :: done) ((p :: ps).erase u) l' hrec
                  rw [← h]
                  exact (hperm.cons u).trans (List.perm_cons_erase hu).symm

theorem topoAux_isTopo (edges : List Edge) :
    ∀ (fuel : Nat) (done pending l : List Nat),
      topoAux edges fuel done pending = some l →
      ∀ e ∈ edges, ∀ pre u suf, l = pre ++ u :: suf → e.dst = u →
        done.contains e.src = true ∨ e.src ∈ pre := by
  intro fuel
  induction fuel with
  | zero =>
      intro done pending l h e he pre u suf hsplit hdst
      cases pending with
      | nil =>
          simp only [topoAux, Option.some.injEq] at h
          rw [← h] at hsplit
          exact absurd hsplit (by simp)
      | cons p ps => simp [topoAux] at h
  | succ n ih =>
      intro done pending l h e he pre u suf hsplit hdst
      cases pending with
      | nil =>
          simp only [topoAux, Option.some.injEq] at h
          rw [← h] at hsplit
          exact absurd hsplit (by simp)
      | cons p ps =>
          simp only [topoAux] at h
          cases hfind : (p :: ps).find? (nodeReady edges done) with
          | none => simp [hfind] at h
          | some v =>
              simp only [hfind] at h
              cases hrec : topoAux edges n (v :: done) ((p :: ps).erase v) with
              | none => simp [hrec] at h
              | some l' =>
                  simp only [hrec, Option.map_some', Option.some.injEq] at h
                  have hready : nodeReady edges done v = true :=
                    List.find?_some hfind
                  cases pre with
                  | nil =>
                      -- the occurrence is the freshly emitted node `v`
                      simp only [List.nil_append] at hsplit
                      rw [← h] at hsplit
                      have hv : v = u := (List.cons.injEq _ _ _ _ ▸ hsplit).1
                      have := (List.all_eq_true.mp hready) e he
                      rw [hv, hdst] at this
                      simp only [bne_self_eq_false, Bool.false_or] at this
                      exact Or.inl this
                  | cons q pre' =>
                      rw [← h] at hsplit
                      have hq : q = v ∧ l' = pre' ++ u :: suf := by
                        have := List.cons.injEq v l' q (pre' ++ u :: suf) ▸ hsplit
                        exact ⟨this.1.symm, this.2⟩
                      rcases ih (v :: done) ((p :: ps).erase v) l' hrec e he pre' u suf
                          hq.2 hdst with hdone | hpre
                      · rw [List.contains_cons] at hdone
                        cases hor : (e.src == v) with
                        | true =>
                            exact Or.inr (by
                              simp only [List.mem_cons]
                              exact Or.inl (by rw [hq.1]; exact (by simpa using hor : e.src = v)))
                        | false =>
                            rw [hor] at hdone
                            simp only [Bool.false_or] at hdone
                            exact Or.inl hdone
                      · exact Or.inr (List.mem_cons_of_mem q hpre)

/-- On success, the topological sort emits each node of the graph exactly
once. -/
theorem Graph.topoSort_perm (g : Graph) (order : List Nat)
    (h : g.topoSort = some order) : order.Perm g.uids :=
  topoAux_perm g.edges g.nodes.length [] g.uids order h

/-- On success, the topological sort emits the nodes in a valid
topological order of the edge set. -/
theorem Graph.topoSort_isTopo (g : Graph) (order : List Nat)
    (h : g.topoSort = some order) : IsTopoOrder g.edges order := by
  intro e he pre u suf hsplit hdst
  rcases topoAux_isTopo g.edges g.nodes.length [] g.uids order h e he pre u suf
      hsplit hdst with hdone | hpre
  · simp at hdone
  · exact hpre

theorem Graph.lookupNode_of_mem_uids (g : Graph) (u : Nat) (h : u ∈ g.uids) :
    ∃ n, g.lookupNode u = some n ∧ n.uid = u := by
  obtain ⟨n, hn, hu⟩ := List.mem_map.mp h
  have hsome : (g.nodes.find? (fun n => n.uid == u)).isSome :=
    List.find?_isSome.mpr ⟨n, hn, by simp [hu]⟩
  obtain ⟨m, hm⟩ := Option.isSome_iff_exists.mp hsome
  refine ⟨m, hm, ?_⟩
  have := List.find?_some hm
  simpa using this

theorem Graph.successors_edge (g : Graph) {c s : Nat} (h : s ∈ g.successors c) :
    ∃ e ∈ g.edges, e.src = c ∧ e.dst = s := by
  obtain ⟨e, he, hdst⟩ := List.mem_map.mp h
  have hf := List.mem_filter.mp he
  exact ⟨e, hf.1, by simpa using hf.2, hdst⟩

theorem Graph.predecessors_edge (g : Graph) {c p : Nat} (h : p ∈ g.predecessors c) :
    ∃ e ∈ g.edges, e.src = p ∧ e.dst = c := by
  obtain ⟨e, he, hsrc⟩ := List.mem_map.mp h
  have hf := List.mem_filter.mp he
  exact ⟨e, hf.1, hsrc, by simpa using hf.2⟩

theorem Graph.edgeAttr_out_ok (g : Graph) {c s : Nat} {nc : PyNode}
    (htag : g.EdgesTagged) (hc : g.lookupNode c = some nc) (hcc : nc.isControl = true)
    (hs : s ∈ g.successors c) :
    ∃ role, g.edgeAttr c s "output_name" = .ok role := by
  obtain ⟨e, he, hsrc, hdst⟩ := g.successors_edge hs
  have hfindSome : (g.edges.find? (fun e => e.src == c && e.dst == s)).isSome :=
    List.find?_isSome.mpr ⟨e, he, by simp [hsrc, hdst]⟩
  obtain ⟨e₀, he₀⟩ := Option.isSome_iff_exists.mp hfindSome
  have hp := List.find?_some he₀
  simp only [Bool.and_eq_true, beq_iff_eq] at hp
  have htagged := htag e₀ (List.mem_of_find?_eq_some he₀)
  simp only [Graph.edgeTagged?, hp.1, hp.2, hc, Bool.and_eq_true] at htagged
  have hkey : (e₀.attrs.lookup "output_name").isSome := by
    have h1 := htagged.1
    rw [hcc] at h1
    simpa using h1
  obtain ⟨role, hrole⟩ := Option.isSome_iff_exists.mp hkey
  exact ⟨role, by simp only [Graph.edgeAttr, he₀, hrole]⟩

theorem Graph.edgeAttr_in_ok (g : Graph) {c p : Nat} {nc : PyNode}
    (htag : g.EdgesTagged) (hc : g.lookupNode c = some nc) (hcc : nc.isControl = true)
    (hp : p ∈ g.predecessors c) :
    ∃ role, g.edgeAttr p c "input_name" = .ok role := by
  obtain ⟨e, he, hsrc, hdst⟩ := g.predecessors_edge hp
  have hfindSome : (g.edges.find? (fun e => e.src == p && e.dst == c)).isSome :=
    List.find?_isSome.mpr ⟨e, he, by simp [hsrc, hdst]⟩
  obtain ⟨e₀, he₀⟩ := Option.isSome_iff_exists.mp hfindSome
  have hpq := List.find?_some he₀
  simp only [Bool.and_eq_true, beq_iff_eq] at hpq
  have htagged := htag e₀ (List.mem_of_find?_eq_some he₀)
  simp only [Graph.edgeTagged?, hpq.1, hpq.2, hc, Bool.and_eq_true] at htagged
  have hkey : (e₀.attrs.lookup "input_name").isSome := by
    have h2 := htagged.2
    rw [hcc] at h2
    simpa using h2
  obtain ⟨role, hrole⟩ := Option.isSome_iff_exists.mp hkey
  exact ⟨role, by simp only [Graph.edgeAttr, he₀, hrole]⟩

theorem Graph.succ_isData (g : Graph) {c s : Nat} {nc : PyNode}
    (hwf : g.WF) (hbip : g.Bipartite) (hc : g.lookupNode c = some nc)
    (hcc : nc.isControl = true) (hs : s ∈ g.successors c) :
    ∃ m, g.lookupNode s = some m ∧ m.isData = true := by
  obtain ⟨e, he, hsrc, hdst⟩ := g.successors_edge hs
  have hmem := (hwf.2 e he).2
  obtain ⟨m, hm, _⟩ := g.lookupNode_of_mem_uids e.dst hmem
  have hbe := hbip e he
  rw [hdst] at hm
  simp only [Graph.sameKindEdge?, hsrc, hdst, hc, hm, beq_eq_false_iff_ne, ne_eq] at hbe
  have hncd : nc.isData = false := by
    simpa [PyNode.isControl] using hcc
  refine ⟨m, hm, ?_⟩
  cases hmd : m.isData with
  | true => rfl
  | false => exact absurd (hncd.trans hmd.symm) hbe

theorem Graph.pred_isData (g : Graph) {c p : Nat} {nc : PyNode}
    (hwf : g.WF) (hbip : g.Bipartite) (hc : g.lookupNode c = some nc)
    (hcc : nc.isControl = true) (hp : p ∈ g.predecessors c) :
    ∃ m, g.lookupNode p = some m ∧ m.isData = true := by
  obtain ⟨e, he, hsrc, hdst⟩ := g.predecessors_edge hp
  have hmem := (hwf.2 e he).1
  obtain ⟨m, hm, _⟩ := g.lookupNode_of_mem_uids e.src hmem
  have hbe := hbip e he
  rw [hsrc] at hm
  simp only [Graph.sameKindEdge?, hsrc, hdst, hc, hm, beq_eq_false_iff_ne, ne_eq] at hbe
  have hncd : nc.isData = false := by
    simpa [PyNode.isControl] using hcc
  refine ⟨m, hm, ?_⟩
  cases hmd : m.isData with
  | true => rfl
  | false => exact absurd (hmd.trans hncd.symm) hbe

theorem Graph.nodeResultId_data (g : Graph) {u : Nat} {m : PyNode}
    (hm : g.lookupNode u = some m) (hd : m.isData = true) :
    g.nodeResultId u = .ok (g.dataResultId u) := by
  obtain ⟨uid, info⟩ := m
  cases info with
  | data rid sh v => simp [Graph.nodeResultId, Graph.dataResultId, hm]
  | control op ps => simp [PyNode.isData, NodeInfo.isData] at hd

theorem Graph.outEntries_eq (g : Graph) {c : Nat} {nc : PyNode}
    (hwf : g.WF) (hbip : g.Bipartite) (htag : g.EdgesTagged)
    (hc : g.lookupNode c = some nc) (hcc : nc.isControl = true) :
    ∀ ss, (∀ s ∈ ss, s ∈ g.successors c) →
      g.outEntries c ss =
        .ok (ss.map fun s => (g.roleName c s "output_name", g.dataResultId s)) := by
  intro ss
  induction ss with
  | nil => intro _; rfl
  | cons s rest ih =>
      intro hsub
      have hs := hsub s (List.mem_cons_self _ _)
      obtain ⟨role, hrole⟩ := g.edgeAttr_out_ok htag hc hcc hs
      obtain ⟨m, hm, hd⟩ := g.succ_isData hwf hbip hc hcc hs
      have hrid := g.nodeResultId_data hm hd
      have hrn : g.roleName c s "output_name" = role := by simp [Graph.roleName, hrole]
      simp [Graph.outEntries, hrole, hrid,
        ih (fun x hx => hsub x (List.mem_cons_of_mem _ hx)), hrn]

theorem Graph.inEntries_eq (g : Graph) {c : Nat} {nc : PyNode}
    (hwf : g.WF) (hbip : g.Bipartite) (htag : g.EdgesTagged)
    (hc : g.lookupNode c = some nc) (hcc : nc.isControl = true) :
    ∀ ps, (∀ p ∈ ps, p ∈ g.predecessors c) →
      g.inEntries c ps =
        .ok (ps.map fun p => (g.roleName p c "input_name", g.dataResultId p)) := by
  intro ps
  induction ps with
  | nil => intro _; rfl
  | cons p rest ih =>
      intro hsub
      have hp := hsub p (List.mem_cons_self _ _)
      obtain ⟨role, hrole⟩ := g.edgeAttr_in_ok htag hc hcc hp
      obtain ⟨m, hm, hd⟩ := g.pred_isData hwf hbip hc hcc hp
      have hrid := g.nodeResultId_data hm hd
      have hrn : g.roleName p c "input_name" = role := by simp [Graph.roleName, hrole]
      simp [Graph.inEntries, hrole, hrid,
        ih (fun x hx => hsub x (List.mem_cons_of_mem _ hx)), hrn]

theorem Graph.compileLoop_eq (g : Graph)
    (hwf : g.WF) (hbip : g.Bipartite) (htag : g.EdgesTagged) :
    ∀ us, (∀ u ∈ us, u ∈ g.uids) →
      g.compileLoop us = .ok ((us.filter g.controlUid).map g.taskFor) := by
  intro us
  induction us with
  | nil => intro _; rfl
  | cons u rest ih =>
      intro hsub
      have hu := hsub u (List.mem_cons_self _ _)
      obtain ⟨n, hn, huid⟩ := g.lookupNode_of_mem_uids u hu
      have ihr := ih (fun x hx => hsub x (List.mem_cons_of_mem _ hx))
      obtain ⟨uid, info⟩ := n
      cases info with
      | data rid sh v =>
          have hctrl : g.controlUid u = false := by
            simp [Graph.controlUid, hn, PyNode.isControl, PyNode.isData, NodeInfo.isData]
          simp [Graph.compileLoop, hn, List.filter_cons, hctrl, ihr]
      | control op params =>
          have hcc : (⟨uid, .control op params⟩ : PyNode).isControl = true := rfl
          have houts := g.outEntries_eq hwf hbip htag hn hcc (g.successors u) (fun _ h => h)
          have hins := g.inEntries_eq hwf hbip htag hn hcc (g.predecessors u) (fun _ h => h)
          have hctrl : g.controlUid u = true := by
            simp [Graph.controlUid, hn, PyNode.isControl, PyNode.isData, NodeInfo.isData]
          simp [Graph.compileLoop, hn, houts, hins, ihr, List.filter_cons, hctrl,
            Graph.taskFor]

/-- C1: on every finished well-formed bipartite DAG (well-formed: unique
node identities, edge endpoints present, role tags on control-node edges),
`SessionContext._compile` succeeds and produces exactly one task definition
per control node — the emitted node sequence is a permutation of the
graph's nodes, hence its control sublist is a permutation of the control
nodes — listed in a valid topological order of the graph, and each task is
`Graph.taskFor` of its control node: a payload carrying the node's opcode,
the map from output role name to the successor data node's external id,
the map from input role name to the predecessor data node's external id,
and the node's parameters. -/
theorem compile_one_task_per_control (g : Graph) (order : List Nat)
    (hwf : g.WF) (hbip : g.Bipartite) (htag : g.EdgesTagged)
    (hsort : g.topoSort = some order) :
    IsTopoOrder g.edges order ∧
    order.Perm g.uids ∧
    (order.filter g.controlUid).Perm (g.uids.filter g.controlUid) ∧
    SessionContext.compile g = .ok ((order.filter g.controlUid).map g.taskFor) := by
  have hperm := g.topoSort_perm order hsort
  refine ⟨g.topoSort_isTopo order hsort, hperm, hperm.filter _, ?_⟩
  unfold SessionContext.compile
  rw [hsort]
  exact g.compileLoop_eq hwf hbip htag order (fun u hu => hperm.mem_iff.mp hu)

theorem assignIds_spec (ns : List PyNode) : ∀ st : DummyState,
    (assignIds ns st).2.fresh = st.fresh + (ns.filter (·.isData)).length ∧
    List.Forall₂ (fun n n' =>
        n'.uid = n.uid ∧ n'.isData = n.isData ∧ n'.vals = n.vals ∧
        (n.isData = true → ∃ k, n' = n.withRid (some k)) ∧
        (n.isData = false → n' = n)) ns (assignIds ns st).1 ∧
    ((assignIds ns st).1.filter (·.isData)).map PyNode.rid =
      (List.range' st.fresh (ns.filter (·.isData)).length).map some := by
  induction ns with
  | nil => intro st; simp [assignIds]
  | cons n rest ih =>
      intro st
      obtain ⟨uid, info⟩ := n
      cases info with
      | data rid sh v =>
          obtain ⟨ihf, ihr, ihm⟩ := ih ⟨dictSet st.results (some st.fresh) Option.none, st.fresh + 1⟩
          refine ⟨?_, ?_, ?_⟩
          · simp only [assignIds, DummyBackend.requestOutputId]
            rw [ihf]
            simp [PyNode.isData, NodeInfo.isData, List.filter_cons]
            omega
          · simp only [assignIds, DummyBackend.requestOutputId]
            refine List.Forall₂.cons ⟨rfl, rfl, rfl, fun _ => ⟨st.fresh, rfl⟩, ?_⟩ ihr
            intro hfalse
            simp [PyNode.isData, NodeInfo.isData] at hfalse
          · simp only [assignIds, DummyBackend.requestOutputId]
            simp only [List.filter_cons, PyNode.withRid]
            simp only [show (PyNode.isData ⟨uid, .data (some st.fresh) sh v⟩) = true from rfl,
              show (PyNode.isData ⟨uid, .data rid sh v⟩) = true from rfl, if_pos, ite_true]
            rw [List.map_cons, ihm]
            rfl
      | control op params =>
          obtain ⟨ihf, ihr, ihm⟩ := ih st
          refine ⟨?_, ?_, ?_⟩
          · simp only [assignIds]
            rw [ihf]
            simp [PyNode.isData, NodeInfo.isData, List.filter_cons]
          · simp only [assignIds]
            exact List.Forall₂.cons
              ⟨rfl, rfl, rfl,
                fun h => by simp [PyNode.isData, NodeInfo.isData] at h, fun _ => rfl⟩ ihr
          · simp only [assignIds, List.filter_cons]
            simp only [show (PyNode.isData ⟨uid, .control op params⟩) = false from rfl]
            simpa using ihm

theorem seeds_zip (A B : Nat → Bool) :
    ∀ ns ns' : List PyNode,
      List.Forall₂ (fun n n' =>
          n'.uid = n.uid ∧ n'.isData = n.isData ∧ n'.vals = n.vals ∧
          (n.isData = true → ∃ k, n' = n.withRid (some k)) ∧
          (n.isData = false → n' = n)) ns ns' →
      ((ns'.filter fun n => n.isData && A n.uid && B n.uid).map fun n => (n.rid, Result.mk n.vals)) =
        (((ns.zip ns').filter fun nn => nn.1.isData && A nn.1.uid && B nn.1.uid).map
          fun nn => (nn.2.rid, Result.mk nn.1.vals)) := by
  intro ns ns' h
  induction h with
  | nil => rfl
  | cons hrel hrest ihr =>
      rename_i n n' restL restR
      obtain ⟨huid, hdata, hvals, _, _⟩ := hrel
      simp only [List.zip_cons_cons, List.filter_cons, huid, hdata]
      cases hP : (n.isData && A n.uid && B n.uid) with
      | false => simpa using ihr
      | true => simp [hvals, ihr]

/-- C2: on every graph, `SessionContext._pre_compile` (run against the
reference backend) assigns a fresh external id to every data node —
pairwise distinct ids — leaves the edges untouched, and returns as seed
results exactly the data nodes whose in-degree is 0 and whose out-degree
is positive, in node order, each keyed by its newly assigned external id
and paired with its current value. -/
theorem preCompile_assigns_ids_and_collects_seeds (g : Graph) (st : DummyState) :
    ((SessionContext.preCompile g st).1.1).edges = g.edges ∧
    (∀ n' ∈ ((SessionContext.preCompile g st).1.1).nodes, n'.isData = true → n'.rid.isSome) ∧
    (((((SessionContext.preCompile g st).1.1).nodes.filter (·.isData)).map PyNode.rid)).Nodup ∧
    (SessionContext.preCompile g st).1.2 =
      ((g.nodes.zip ((SessionContext.preCompile g st).1.1).nodes).filter fun nn =>
          nn.1.isData && (g.inDegree nn.1.uid == 0) && decide (0 < g.outDegree nn.1.uid)).map
        (fun nn => (nn.2.rid, Result.mk nn.1.vals)) := by
  obtain ⟨hf, hfa, hm⟩ := assignIds_spec g.nodes st
  have hnodes : ((SessionContext.preCompile g st).1.1).nodes = (assignIds g.nodes st).1 := rfl
  refine ⟨rfl, ?_, ?_, ?_⟩
  · intro n' hn' hd
    have hmem : n'.rid ∈ (((assignIds g.nodes st).1.filter (·.isData)).map PyNode.rid) :=
      List.mem_map_of_mem _ (List.mem_filter.mpr ⟨hnodes ▸ hn', hd⟩)
    rw [hm] at hmem
    obtain ⟨k, _, hk⟩ := List.mem_map.mp hmem
    rw [← hk]
    rfl
  · rw [hnodes, hm]
    exact List.Nodup.map (Option.some_injective _) (List.nodup_range' _ _)
  · have := seeds_zip (fun u => g.inDegree u == 0) (fun u => decide (0 < g.outDegree u))
      g.nodes (assignIds g.nodes st).1 hfa
    exact this

/-- Witness for C1 at `gWitness`. -/
theorem compile_one_task_per_control_witness :
    gWitness.WF ∧ gWitness.Bipartite ∧ gWitness.EdgesTagged ∧
      gWitness.topoSort = some [0, 1, 2] ∧
      (IsTopoOrder gWitness.edges [0, 1, 2] ∧
        List.Perm [0, 1, 2] gWitness.uids ∧
        ([0, 1, 2].filter gWitness.controlUid).Perm (gWitness.uids.filter gWitness.controlUid) ∧
        SessionContext.compile gWitness =
          .ok (([0, 1, 2].filter gWitness.controlUid).map gWitness.taskFor)) :=
  ⟨by decide, by decide, by decide, by decide,
    compile_one_task_per_control gWitness [0, 1, 2] (by decide) (by decide) (by decide)
      (by decide)⟩



/-- C3: the graph class does provide `_check_integrity`, which rejects
`gBad` with a `GraphIntegrityError` — but `SessionContext.run` never
invokes it: on the same non-bipartite graph, `run` pre-compiles, uploads
the seed, compiles and submits (an empty task list) and returns normally,
for every kernel oracle.  The claim that the compile path fails with
`GraphIntegrityError` before producing tasks is right about the intent
(the check exists, fully implemented) and wrong about the code (it is
dead: no caller anywhere). -/
theorem run_never_calls_check_integrity :
    ∀ kern : Kernels,
      SessionContext.run kern gBad ⟨[], 0⟩ =
        .ok ⟨[⟨0, .data (some 0) [] .none⟩, ⟨1, .data (some 1) [] .none⟩], gBad.edges⟩
          ⟨[(some 0, some PValue.none), (some 1, Option.none)], 2⟩ ∧
      gBad.checkIntegrity = .error (.graphIntegrityError "The graph is not bipartite") :=
  fun _ => ⟨rfl, rfl⟩

/-- C5: each of the three shape preconditions of `cholesky` — not
2-dimensional, not square, or size < 1 — fails with a `ValueError` (the
error the spec calls `ConstructionError`), and the raise happens before
any node or graph mutation: the construction state at the raise is the
input state, so the active graph's node count is unchanged. -/
theorem cholesky_bad_shape_fails_before_construction (a : DTArray) (st : BuildState)
    (h : a.shape.length ≠ 2 ∨ a.shape[0]! ≠ a.shape[1]! ∨ a.shape[0]! < 1) :
    ∃ msg, cholesky a st = .error (.valueError msg) st := by
  unfold cholesky
  by_cases h1 : a.shape.length ≠ 2
  · exact ⟨_, by rw [if_pos h1]⟩
  · by_cases h2 : a.shape[0]! ≠ a.shape[1]!
    · exact ⟨_, by rw [if_neg h1, if_pos h2]⟩
    · have h3 : a.shape[0]! < 1 := by
        rcases h with h | h | h
        · exact absurd h h1
        · exact absurd h h2
        · exact h
      exact ⟨"Invalid matrix shape " ++ toString a.shape ++ ".",
        by rw [if_neg h1, if_neg h2]; simp [h3]⟩

/-- Witness for C5 at a 3×5 (non-square) tiled array and an empty
construction state. -/
theorem cholesky_bad_shape_witness :
    (((EmptyDTA [3, 5]).shape.length ≠ 2 ∨
        (EmptyDTA [3, 5]).shape[0]! ≠ (EmptyDTA [3, 5]).shape[1]! ∨
        (EmptyDTA [3, 5]).shape[0]! < 1)) ∧
      ∃ msg, cholesky (EmptyDTA [3, 5]) ⟨⟨[], []⟩, 0⟩ =
        .error (.valueError msg) ⟨⟨[], []⟩, 0⟩ :=
  ⟨Or.inr (Or.inl (by decide)),
    cholesky_bad_shape_fails_before_construction (EmptyDTA [3, 5]) ⟨⟨[], []⟩, 0⟩
      (Or.inr (Or.inl (by decide)))⟩

/-- C7: uploading a result for an external id that was never requested is
*not* fatal: on a fresh backend, `submit_results` for the never-requested
id `99` silently stores the payload and raises nothing — the
`except KeyError: raise BackendError("Result submitted before being
created.")` handler is dead code because a dict item assignment never
raises `KeyError`. -/
theorem submit_results_stores_unrequested_id :
    DummyBackend.submitResults [(some 99, ⟨.int 7⟩)] ⟨[], 0⟩ =
        ⟨[(some 99, some (.int 7))], 0⟩ ∧
      dictGet (DummyBackend.submitResults [(some 99, ⟨.int 7⟩)] ⟨[], 0⟩).results (some 99) =
        some (some (.int 7)) :=
  ⟨rfl, rfl⟩

/-- C8 (counterexample): fetching the declared-but-never-uploaded seed
does fail — but with the `TypeError` of `pickle.loads(None)`, not with a
`BackendError` as claimed. -/
theorem get_declared_not_uploaded_counterexample :
    SessionContext.getDataNode seedNode declaredNotUploaded =
        .error (.typeError "a bytes-like object is required, not NoneType")
          declaredNotUploaded ∧
      ¬ ∃ msg st', SessionContext.getDataNode seedNode declaredNotUploaded =
          .error (.backendError msg) st' := by
  refine ⟨rfl, ?_⟩
  rintro ⟨msg, st', h⟩
  rw [show SessionContext.getDataNode seedNode declaredNotUploaded =
      .error (.typeError "a bytes-like object is required, not NoneType")
        declaredNotUploaded from rfl] at h
  simp at h

/-- C8 (amended): for every data node whose result id is allocated but
still holds the `None` marker, the fetch fails with `TypeError` (from
deserializing the `None` placeholder), the state unchanged. -/
theorem getDataNode_declared_not_uploaded_typeError (n : PyNode) (st : DummyState)
    (h : dictGet st.results n.rid = some Option.none) :
    SessionContext.getDataNode n st =
      .error (.typeError "a bytes-like object is required, not NoneType") st := by
  have h1 : DummyBackend.getResult n.rid st =
      .error (.typeError "a bytes-like object is required, not NoneType") st := by
    unfold DummyBackend.getResult
    rw [h]
  unfold SessionContext.getDataNode
  rw [h1]

/-- Witness for C8's amended theorem. -/
theorem getDataNode_declared_not_uploaded_witness :
    dictGet declaredNotUploaded.results seedNode.rid = some Option.none ∧
      SessionContext.getDataNode seedNode declaredNotUploaded =
        .error (.typeError "a bytes-like object is required, not NoneType")
          declaredNotUploaded :=
  ⟨rfl, getDataNode_declared_not_uploaded_typeError seedNode declaredNotUploaded rfl⟩

/-- C9: the `c` input of `MULTIPLY` is *not* optional in the worker
dispatcher.  `tile_gemm` does wire a `c` edge only when `c` is supplied
(last conjunct: with `c = None` exactly the three edges `a -> control`,
`b -> control`, `control -> x` are added, none tagged `c`), and the
payload above decodes and resolves its two inputs fine — but
`process` then evaluates `self._inputs["c"]` unconditionally in the GEMM
branch and dies with `KeyError: 'c'` before any kernel is invoked (the
result is the same error for *every* kernel oracle). -/
theorem gemm_payload_without_c_keyError :
    (∃ inst : WorkerProcessingInstance,
      WorkerProcessingInstance.init gemmPayloadNoC [some 2]
          [(some 0, PValue.none), (some 1, PValue.none)] = .ok inst ∧
      inst.opcode = .GEMM ∧
      inst.inputs = [("a", PValue.none), ("b", PValue.none)] ∧
      (∀ kern : Kernels, inst.process kern = .error (.keyError "c"))) ∧
    (∀ kern : Kernels,
      (⟨.GEMM, [("c", some 2)], [("a", PValue.none), ("b", PValue.none)],
        some [("alpha", .float (-1)), ("beta", .float 1), ("trans_b", .int 1)]⟩ :
          WorkerProcessingInstance).process kern = .error (.keyError "c")) ∧
    tile_gemm (-1) ⟨0, .data Option.none [2, 2] .none⟩ ⟨1, .data Option.none [2, 2] .none⟩
        1 Option.none 0 1 0
        ⟨⟨[⟨0, .data Option.none [2, 2] .none⟩, ⟨1, .data Option.none [2, 2] .none⟩], []⟩, 2⟩ =
      .ok ⟨2, .data Option.none [2, 2] .none⟩
        ⟨⟨[⟨0, .data Option.none [2, 2] .none⟩, ⟨1, .data Option.none [2, 2] .none⟩,
           ⟨3, .control .GEMM
             [("alpha", .float (-1)), ("beta", .float 1), ("trans_a", .int 0),
              ("trans_b", .int 1), ("overwrite_c", .int 0)]⟩,
           ⟨2, .data Option.none [2, 2] .none⟩],
          [⟨0, 3, [("input_name", "a")]⟩, ⟨1, 3, [("input_name", "b")]⟩,
           ⟨3, 2, [("output_name", "c")]⟩]⟩, 4⟩ := by
  refine ⟨⟨⟨.GEMM, [("c", some 2)], [("a", PValue.none), ("b", PValue.none)],
    some [("alpha", .float (-1)), ("beta", .float 1), ("trans_b", .int 1)]⟩,
    rfl, rfl, rfl, fun kern => rfl⟩, fun kern => rfl, rfl⟩

theorem resolveDeps_backendError (m : List (ResultId × Option PValue)) :
    ∀ ds, (∀ d ∈ ds, (dictGet m d).isSome) →
      (∃ d ∈ ds, dictGet m d = some Option.none) →
      resolveDeps m ds = .error (.backendError
        "A task with unresolved dependencies has been encountered. Perhaps the tasks were not submitted in topological order.") := by
  intro ds
  induction ds with
  | nil =>
      rintro _ ⟨d, hd, _⟩
      exact absurd hd (List.not_mem_nil d)
  | cons d ds ih =>
      intro hall hex
      cases hd : dictGet m d with
      | none => exact absurd (hall d (List.mem_cons_self _ _)) (by simp [hd])
      | some v =>
        cases v with
        | none => simp [resolveDeps, hd]
        | some b =>
            have hex' : ∃ x ∈ ds, dictGet m x = some Option.none := by
              rcases hex with ⟨x, hx, hxe⟩
              rcases List.mem_cons.mp hx with rfl | hx'
              · rw [hd] at hxe
                exact absurd hxe (by simp)
              · exact ⟨x, hx', hxe⟩
            have hrec := ih (fun x hx => hall x (List.mem_cons_of_mem _ hx)) hex'
            simp [resolveDeps, hd, hrec]

/-- C6: the reference executor runs tasks strictly in the order given —
submitting a concatenation is running the first batch and, only if it
fully succeeds, the second on the resulting state — and a task one of
whose declared input ids is still marked "not yet produced" (its
`_results` entry is the `None` marker) fails with `BackendError`, with
the state unchanged and the same error for every kernel oracle: its
kernel never runs, so no wrong or missing result is silently produced. -/
theorem submitTasks_order_and_dependency_check :
    (∀ (kern : Kernels) (ts₁ ts₂ : List TaskDefinition) (st : DummyState),
        DummyBackend.submitTasks kern (ts₁ ++ ts₂) st =
          match DummyBackend.submitTasks kern ts₁ st with
          | .ok _ st' => DummyBackend.submitTasks kern ts₂ st'
          | .error e st' => .error e st') ∧
    (∀ (kern : Kernels) (t : TaskDefinition) (ts : List TaskDefinition) (st : DummyState),
        (∀ d ∈ t.data_dependencies, (dictGet st.results d).isSome) →
        (∃ d ∈ t.data_dependencies, dictGet st.results d = some Option.none) →
        DummyBackend.submitTasks kern (t :: ts) st =
          .error (.backendError
            "A task with unresolved dependencies has been encountered. Perhaps the tasks were not submitted in topological order.") st) := by
  constructor
  · intro kern ts₁ ts₂ st
    induction ts₁ generalizing st with
    | nil => rfl
    | cons t ts ih =>
        have hl : DummyBackend.submitTasks kern ((t :: ts) ++ ts₂) st =
            (match DummyBackend.processTask kern t st with
             | .ok _ st' => DummyBackend.submitTasks kern (ts ++ ts₂) st'
             | .error e st' => .error e st') := rfl
        have hr : DummyBackend.submitTasks kern (t :: ts) st =
            (match DummyBackend.processTask kern t st with
             | .ok _ st' => DummyBackend.submitTasks kern ts st'
             | .error e st' => .error e st') := rfl
        rw [hl, hr]
        cases DummyBackend.processTask kern t st with
        | ok _ st' => exact ih st'
        | error e st' => rfl
  · intro kern t ts st hall hex
    have hdep := resolveDeps_backendError st.results t.data_dependencies hall hex
    show (match DummyBackend.processTask kern t st with
          | .ok _ st' => DummyBackend.submitTasks kern ts st'
          | .error e st' => .error e st') = _
    unfold DummyBackend.processTask
    rw [hdep]

/-- Witness for C6: a consumer task whose single declared input id is
allocated but not yet produced fails with `BackendError` on the reference
executor. -/
theorem submitTasks_dependency_check_witness :
    (∀ d ∈ ([some 0] : List ResultId),
        (dictGet [(some 0, Option.none)] d).isSome) ∧
    (∃ d ∈ ([some 0] : List ResultId),
        dictGet [(some 0, Option.none)] d = some Option.none) ∧
    DummyBackend.submitTasks kern0 [⟨.null, [], [some 0]⟩] ⟨[(some 0, Option.none)], 1⟩ =
      .error (.backendError
        "A task with unresolved dependencies has been encountered. Perhaps the tasks were not submitted in topological order.")
        ⟨[(some 0, Option.none)], 1⟩ :=
  ⟨by decide, ⟨some 0, List.mem_singleton.mpr rfl, rfl⟩,
    submitTasks_order_and_dependency_check.2 kern0 ⟨.null, [], [some 0]⟩ []
      ⟨[(some 0, Option.none)], 1⟩ (by decide)
      ⟨some 0, List.mem_singleton.mpr rfl, rfl⟩⟩

theorem find?_append_left {α : Type} (p : α → Bool) (l₁ l₂ : List α)
    (h : (l₁.find? p).isSome) : (l₁ ++ l₂).find? p = l₁.find? p := by
  induction l₁ with
  | nil => simp at h
  | cons a l ih =>
      cases hpa : p a with
      | true => simp [List.find?, hpa]
      | false =>
          rw [show (a :: l).find? p = l.find? p by simp [List.find?, hpa]] at h
          simp [List.find?, hpa, ih h]

theorem find?_append_none {α : Type} (p : α → Bool) (l₁ l₂ : List α)
    (h : l₁.find? p = Option.none) : (l₁ ++ l₂).find? p = l₂.find? p := by
  induction l₁ with
  | nil => rfl
  | cons a l ih =>
      cases hpa : p a with
      | true =>
          rw [show (a :: l).find? p = some a by simp [List.find?, hpa]] at h
          exact absurd h (by simp)
      | false =>
          rw [show (a :: l).find? p = l.find? p by simp [List.find?, hpa]] at h
          simp [List.find?, hpa, ih h]

theorem Graph.addNode_edges (g : Graph) (n : PyNode) : (g.addNode n).edges = g.edges := by
  unfold Graph.addNode
  split <;> rfl

theorem Graph.addNode_nodes_mem (g : Graph) (n q : PyNode)
    (h : q ∈ (g.addNode n).nodes) : q ∈ g.nodes ∨ q = n := by
  unfold Graph.addNode at h
  split at h
  · exact Or.inl h
  · rcases List.mem_append.mp h with h' | h'
    · exact Or.inl h'
    · exact Or.inr (List.mem_singleton.mp h')

theorem Graph.addNode_uids_mem (g : Graph) (n : PyNode) (u : Nat)
    (h : u ∈ (g.addNode n).uids) : u ∈ g.uids ∨ u = n.uid := by
  obtain ⟨q, hq, hu⟩ := List.mem_map.mp h
  rcases g.addNode_nodes_mem n q hq with h' | h'
  · exact Or.inl (hu ▸ List.mem_map_of_mem _ h')
  · exact Or.inr (h' ▸ hu.symm ▸ rfl)

theorem Graph.mem_uids_of_lookup (g : Graph) (u : Nat) {q : PyNode}
    (h : g.lookupNode u = some q) : u ∈ g.uids := by
  have hmem := List.mem_of_find?_eq_some h
  have hp := List.find?_some h
  have : q.uid = u := by simpa using hp
  exact this ▸ List.mem_map_of_mem _ hmem

theorem Graph.addNode_lookup_pres (g : Graph) (n : PyNode) (u : Nat)
    (h : (g.lookupNode u).isSome) : (g.addNode n).lookupNode u = g.lookupNode u := by
  unfold Graph.addNode
  split
  · rfl
  · exact find?_append_left _ g.nodes [n] h

theorem Graph.addNode_lookup_self (g : Graph) (n : PyNode)
    (h : n.uid ∉ g.uids) : (g.addNode n).lookupNode n.uid = some n := by
  have hnone : g.nodes.find? (fun q => q.uid == n.uid) = Option.none := by
    rw [List.find?_eq_none]
    intro q hq hbe
    exact h ((Nat.eq_of_beq_eq_true (by simpa using hbe)) ▸ List.mem_map_of_mem _ hq)
  unfold Graph.addNode
  split
  · rename_i hc
    exact absurd (by simpa using hc) h
  · show (g.nodes ++ [n]).find? (fun q => q.uid == n.uid) = some n
    rw [find?_append_none _ _ _ hnone]
    simp [List.find?]

theorem Graph.lookup_isSome_of_mem (g : Graph) (u : Nat) (h : u ∈ g.uids) :
    (g.lookupNode u).isSome := by
  obtain ⟨m, hm, _⟩ := g.lookupNode_of_mem_uids u h
  simp [hm]

theorem Graph.addEdgeAux_nodes (g : Graph) (u v : Nat) (attrs : List (String × String)) :
    (g.addEdgeAux u v attrs).nodes = g.nodes := by
  unfold Graph.addEdgeAux
  split <;> rfl

theorem Graph.addEdge_lookup (g : Graph) (n m : PyNode) (attrs : List (String × String))
    (u : Nat) : (g.addEdge n m attrs).lookupNode u = ((g.addNode n).addNode m).lookupNode u := by
  unfold Graph.addEdge Graph.lookupNode
  rw [Graph.addEdgeAux_nodes]

theorem Graph.addEdge_nodes_mem (g : Graph) (n m q : PyNode) (attrs : List (String × String))
    (h : q ∈ (g.addEdge n m attrs).nodes) : q ∈ g.nodes ∨ q = n ∨ q = m := by
  have h' : q ∈ ((g.addNode n).addNode m).nodes := by
    unfold Graph.addEdge at h
    rw [Graph.addEdgeAux_nodes] at h
    exact h
  rcases ((g.addNode n).addNode_nodes_mem m q) h' with h'' | h''
  · rcases (g.addNode_nodes_mem n q) h'' with h3 | h3
    · exact Or.inl h3
    · exact Or.inr (Or.inl h3)
  · exact Or.inr (Or.inr h'')

theorem Graph.addEdge_edges_mem (g : Graph) (n m : PyNode) (attrs : List (String × String))
    (e : Edge) (h : e ∈ (g.addEdge n m attrs).edges) :
    e ∈ g.edges ∨ (e.src = n.uid ∧ e.dst = m.uid ∧ e.attrs = attrs) := by
  have hg1 : ((g.addNode n).addNode m).edges = g.edges := by
    rw [Graph.addNode_edges, Graph.addNode_edges]
  unfold Graph.addEdge Graph.addEdgeAux at h
  split at h
  · rw [hg1] at h
    obtain ⟨e₀, he₀, heq⟩ := List.mem_map.mp h
    by_cases hp : (e₀.src == n.uid && e₀.dst == m.uid) = true
    · rw [if_pos hp] at heq
      simp only [Bool.and_eq_true, beq_iff_eq] at hp
      exact Or.inr (heq ▸ ⟨hp.1, hp.2, rfl⟩)
    · rw [if_neg hp] at heq
      exact Or.inl (heq ▸ he₀)
  · rw [hg1] at h
    rcases List.mem_append.mp h with h' | h'
    · exact Or.inl h'
    · have := List.mem_singleton.mp h'
      exact Or.inr (this ▸ ⟨rfl, rfl, rfl⟩)

theorem Graph.addNode_lookup_place (g : Graph) (n : PyNode) (h : g.NodePlace n) :
    (g.addNode n).lookupNode n.uid = some n := by
  rcases h with h | h
  · rw [g.addNode_lookup_pres n n.uid (by simp [h])]
    exact h
  · exact g.addNode_lookup_self n h

theorem Graph.addNode_uids_super (g : Graph) (n : PyNode) (u : Nat) (h : u ∈ g.uids) :
    u ∈ (g.addNode n).uids := by
  unfold Graph.addNode
  split
  · exact h
  · unfold Graph.uids at h ⊢
    rw [List.map_append]
    exact List.mem_append_left _ h

theorem Graph.addNode_uid_self (g : Graph) (n : PyNode) : n.uid ∈ (g.addNode n).uids := by
  unfold Graph.addNode
  split
  · rename_i hc
    simpa using hc
  · unfold Graph.uids
    rw [List.map_append]
    exact List.mem_append_right _ (by simp)

theorem Graph.addNode_WF (g : Graph) (n : PyNode) (hwf : g.WF) : (g.addNode n).WF := by
  constructor
  · unfold Graph.addNode
    split
    · exact hwf.1
    · rename_i hc
      have hnotin : n.uid ∉ g.uids := by simpa using hc
      unfold Graph.uids
      rw [List.map_append]
      simp only [List.map_cons, List.map_nil]
      rw [List.nodup_append]
      refine ⟨hwf.1, List.nodup_singleton _, ?_⟩
      intro u hu hu'
      rw [List.mem_singleton] at hu'
      subst hu'
      exact hnotin hu
  · intro e he
    rw [Graph.addNode_edges] at he
    exact ⟨g.addNode_uids_super n _ ((hwf.2 e he).1),
      g.addNode_uids_super n _ ((hwf.2 e he).2)⟩

theorem Graph.addNode_bipartite (g : Graph) (n : PyNode) (hwf : g.WF)
    (hbip : g.Bipartite) : (g.addNode n).Bipartite := by
  intro e he
  rw [Graph.addNode_edges] at he
  have h1 := g.addNode_lookup_pres n e.src (g.lookup_isSome_of_mem _ ((hwf.2 e he).1))
  have h2 := g.addNode_lookup_pres n e.dst (g.lookup_isSome_of_mem _ ((hwf.2 e he).2))
  have := hbip e he
  simp only [Graph.sameKindEdge?] at this ⊢
  rw [h1, h2]
  exact this

theorem Graph.addEdge_uids_mem (g : Graph) (n m : PyNode) (attrs : List (String × String))
    (u : Nat) (h : u ∈ (g.addEdge n m attrs).uids) :
    u ∈ g.uids ∨ u = n.uid ∨ u = m.uid := by
  obtain ⟨q, hq, hu⟩ := List.mem_map.mp h
  rcases g.addEdge_nodes_mem n m q attrs hq with h' | h' | h'
  · exact Or.inl (hu ▸ List.mem_map_of_mem _ h')
  · exact Or.inr (Or.inl (h' ▸ hu.symm ▸ rfl))
  · exact Or.inr (Or.inr (h' ▸ hu.symm ▸ rfl))

/-- The workhorse for C10: adding one edge between a placed node `n` and a
placed node `m` of the other kind preserves well-formedness and
bipartiteness, and the resulting graph resolves `n`, `m` and every
previously resolvable identity as before. -/
theorem Graph.addEdge_preserve (g : Graph) (n m : PyNode) (attrs : List (String × String))
    (hwf : g.WF) (hbip : g.Bipartite)
    (hpn : g.NodePlace n) (hpm : g.NodePlace m)
    (hnm : n.uid ≠ m.uid) (hkind : n.isData ≠ m.isData) :
    (g.addEdge n m attrs).WF ∧ (g.addEdge n m attrs).Bipartite ∧
    (∀ q ∈ (g.addEdge n m attrs).nodes, q ∈ g.nodes ∨ q = n ∨ q = m) ∧
    (∀ u, (g.lookupNode u).isSome → (g.addEdge n m attrs).lookupNode u = g.lookupNode u) ∧
    (g.addEdge n m attrs).lookupNode n.uid = some n ∧
    (g.addEdge n m attrs).lookupNode m.uid = some m := by
  have hpres : ∀ u, (g.lookupNode u).isSome →
      (g.addEdge n m attrs).lookupNode u = g.lookupNode u := by
    intro u hu
    rw [g.addEdge_lookup n m attrs u]
    have h1 := g.addNode_lookup_pres n u hu
    rw [(g.addNode n).addNode_lookup_pres m u (by rw [h1]; exact hu), h1]
  have hln : (g.addEdge n m attrs).lookupNode n.uid = some n := by
    rw [g.addEdge_lookup n m attrs n.uid]
    have h1 := g.addNode_lookup_place n hpn
    rw [(g.addNode n).addNode_lookup_pres m n.uid (by rw [h1]; rfl), h1]
  have hlm : (g.addEdge n m attrs).lookupNode m.uid = some m := by
    rw [g.addEdge_lookup n m attrs m.uid]
    refine (g.addNode n).addNode_lookup_place m ?_
    rcases hpm with h | h
    · exact Or.inl (by rw [g.addNode_lookup_pres n m.uid (by simp [h])]; exact h)
    · refine Or.inr fun hmem => ?_
      rcases g.addNode_uids_mem n m.uid hmem with h' | h'
      · exact h h'
      · exact hnm h'.symm
  have hwf2 : (g.addEdge n m attrs).WF := by
    constructor
    · have : (g.addEdge n m attrs).nodes = ((g.addNode n).addNode m).nodes := by
        unfold Graph.addEdge
        rw [Graph.addEdgeAux_nodes]
      show (g.addEdge n m attrs).uids.Nodup
      unfold Graph.uids
      rw [this]
      exact (Graph.addNode_WF (g.addNode n) m (Graph.addNode_WF g n hwf)).1
    · intro e he
      have hnu : n.uid ∈ (g.addEdge n m attrs).uids :=
        (g.addEdge n m attrs).mem_uids_of_lookup n.uid hln
      have hmu : m.uid ∈ (g.addEdge n m attrs).uids :=
        (g.addEdge n m attrs).mem_uids_of_lookup m.uid hlm
      rcases g.addEdge_edges_mem n m attrs e he with hold | ⟨hs, hd, _⟩
      · have h1 := (hwf.2 e hold).1
        have h2 := (hwf.2 e hold).2
        constructor
        · obtain ⟨q, hq, _⟩ := g.lookupNode_of_mem_uids e.src h1
          exact (g.addEdge n m attrs).mem_uids_of_lookup e.src
            ((hpres e.src (by simp [hq])).symm ▸ hq)
        · obtain ⟨q, hq, _⟩ := g.lookupNode_of_mem_uids e.dst h2
          exact (g.addEdge n m attrs).mem_uids_of_lookup e.dst
            ((hpres e.dst (by simp [hq])).symm ▸ hq)
      · exact ⟨hs ▸ hnu, hd ▸ hmu⟩
  refine ⟨hwf2, ?_, fun q hq => g.addEdge_nodes_mem n m q attrs hq, hpres, hln, hlm⟩
  intro e he
  rcases g.addEdge_edges_mem n m attrs e he with hold | ⟨hs, hd, _⟩
  · have h1 := hpres e.src (g.lookup_isSome_of_mem _ ((hwf.2 e hold).1))
    have h2 := hpres e.dst (g.lookup_isSome_of_mem _ ((hwf.2 e hold).2))
    have := hbip e hold
    simp only [Graph.sameKindEdge?] at this ⊢
    rw [h1, h2]
    exact this
  · simp only [Graph.sameKindEdge?, hs, hd, hln, hlm]
    exact beq_eq_false_iff_ne.mpr hkind

theorem fresh_not_mem_uids (g : Graph) (b u : Nat)
    (hb : ∀ q ∈ g.nodes, q.uid < b) (hu : b ≤ u) : u ∉ g.uids := by
  intro hmem
  obtain ⟨q, hq, he⟩ := List.mem_map.mp hmem
  exact absurd (he ▸ hb q hq) (by omega)

theorem uid_lt_of_mem_uids (g : Graph) (b u : Nat)
    (hb : ∀ q ∈ g.nodes, q.uid < b) (hu : u ∈ g.uids) : u < b := by
  obtain ⟨q, hq, he⟩ := List.mem_map.mp hu
  exact he ▸ hb q hq

theorem consistent_of_place (g : Graph) (hwf : g.WF) (n : PyNode)
    (hp : g.NodePlace n) : ∀ p ∈ g.nodes, p.uid = n.uid → p = n := by
  intro p hpmem heq
  rcases hp with h | h
  · have hfound : n ∈ g.nodes := List.mem_of_find?_eq_some h
    have hinj := List.inj_on_of_nodup_map hwf.1
    exact hinj hpmem hfound heq
  · exact absurd (heq ▸ List.mem_map_of_mem _ hpmem) h

theorem place_of_consistent (g : Graph) (n : PyNode)
    (hcons : ∀ p ∈ g.nodes, p.uid = n.uid → p = n) : g.NodePlace n := by
  by_cases h : n.uid ∈ g.uids
  · obtain ⟨m, hm, hmu⟩ := g.lookupNode_of_mem_uids n.uid h
    exact Or.inl (by rw [hm, hcons m (List.mem_of_find?_eq_some hm) hmu])
  · exact Or.inr h

/-- C10's induction core: `add_edges_from` over a list of edges, each
joining two nodes of different kinds, preserves well-formedness and
bipartiteness, provided every node occurrence involved is
identity-coherent.  The node set grows only by the listed endpoints. -/
theorem addEdgesFrom_inv :
    ∀ (l : List (PyNode × PyNode × List (String × String))) (g : Graph),
      g.WF → g.Bipartite →
      (∀ t ∈ l, (t.1 : PyNode).isData ≠ (t.2.1 : PyNode).isData) →
      UidConsistent (g.nodes ++ l.flatMap (fun t => [t.1, t.2.1])) →
      (g.addEdgesFrom l).WF ∧ (g.addEdgesFrom l).Bipartite ∧
        (∀ q ∈ (g.addEdgesFrom l).nodes, q ∈ g.nodes ∨ ∃ t ∈ l, q = t.1 ∨ q = t.2.1) := by
  intro l
  induction l with
  | nil =>
      intro g hwf hbip _ _
      exact ⟨hwf, hbip, fun q hq => Or.inl hq⟩
  | cons t rest ih =>
      intro g hwf hbip hkinds hcons
      obtain ⟨n, m, attrs⟩ := t
      have hkind : n.isData ≠ m.isData := hkinds ⟨n, m, attrs⟩ (List.mem_cons_self _ _)
      have hnocc : n ∈ g.nodes ++ (⟨n, m, attrs⟩ :: rest).flatMap (fun t => [t.1, t.2.1]) := by
        refine List.mem_append_right _ ?_
        simp [List.flatMap_cons]
      have hmocc : m ∈ g.nodes ++ (⟨n, m, attrs⟩ :: rest).flatMap (fun t => [t.1, t.2.1]) := by
        refine List.mem_append_right _ ?_
        simp [List.flatMap_cons]
      have hnm : n.uid ≠ m.uid := by
        intro heq
        exact hkind (hcons n hnocc m hmocc heq ▸ rfl)
      have hpn : g.NodePlace n :=
        place_of_consistent g n fun p hp heq =>
          hcons p (List.mem_append_left _ hp) n hnocc heq
      have hpm : g.NodePlace m :=
        place_of_consistent g m fun p hp heq =>
          hcons p (List.mem_append_left _ hp) m hmocc heq
      obtain ⟨wf1, bip1, nodes1, pres1, ln1, lm1⟩ :=
        g.addEdge_preserve n m attrs hwf hbip hpn hpm hnm hkind
      have hcons1 : UidConsistent ((g.addEdge n m attrs).nodes ++
          rest.flatMap (fun t => [t.1, t.2.1])) := by
        intro p hp q hq heq
        have hsub : ∀ r, r ∈ (g.addEdge n m attrs).nodes ++
            rest.flatMap (fun t => [t.1, t.2.1]) →
            r ∈ g.nodes ++ (⟨n, m, attrs⟩ :: rest).flatMap (fun t => [t.1, t.2.1]) := by
          intro r hr
          rcases List.mem_append.mp hr with hr' | hr'
          · rcases nodes1 r hr' with h' | h' | h'
            · exact List.mem_append_left _ h'
            · exact h' ▸ hnocc
            · exact h' ▸ hmocc
          · refine List.mem_append_right _ ?_
            simp only [List.flatMap_cons]
            exact List.mem_append_right _ hr'
        exact hcons p (hsub p hp) q (hsub q hq) heq
      obtain ⟨wfr, bipr, nodesr⟩ := ih (g.addEdge n m attrs) wf1 bip1
        (fun t ht => hkinds t (List.mem_cons_of_mem _ ht)) hcons1
      refine ⟨wfr, bipr, ?_⟩
      intro q hq
      rcases nodesr q hq with h | ⟨t', ht', h'⟩
      · rcases nodes1 q h with h' | h' | h'
        · exact Or.inl h'
        · exact Or.inr ⟨⟨n, m, attrs⟩, List.mem_cons_self _ _, Or.inl h'⟩
        · exact Or.inr ⟨⟨n, m, attrs⟩, List.mem_cons_self _ _, Or.inr h'⟩
      · exact Or.inr ⟨t', List.mem_cons_of_mem _ ht', h'⟩

/-- Uid coherence of the node occurrence list produced by a v-shaped
builder: the graph's own nodes, two placed operands below the fresh-id
bound, and two fresh nodes above it. -/
theorem consistent_builder (g : Graph) (bound : Nat) (a b ctrl x : PyNode)
    (occ : List PyNode) (hocc : ∀ r ∈ occ, r = a ∨ r = b ∨ r = ctrl ∨ r = x)
    (hwf : g.WF) (hb : ∀ q ∈ g.nodes, q.uid < bound)
    (hau : a.uid < bound) (hpa : g.NodePlace a)
    (hbu : b.uid < bound) (hpb : g.NodePlace b)
    (hab : a = b ∨ a.uid ≠ b.uid)
    (hcu : bound ≤ ctrl.uid) (hxu : bound ≤ x.uid) (hcx : ctrl.uid ≠ x.uid) :
    UidConsistent (g.nodes ++ occ) := by
  have hga := consistent_of_place g hwf a hpa
  have hgb := consistent_of_place g hwf b hpb
  intro p hp q hq heq
  have classify : ∀ r ∈ g.nodes ++ occ, r ∈ g.nodes ∨ r = a ∨ r = b ∨ r = ctrl ∨ r = x := by
    intro r hr
    rcases List.mem_append.mp hr with h | h
    · exact Or.inl h
    · exact Or.inr (hocc r h)
  rcases classify p hp with hpg | rfl | rfl | rfl | rfl <;>
    rcases classify q hq with hqg | rfl | rfl | rfl | rfl <;>
    first
    | rfl
    | exact List.inj_on_of_nodup_map hwf.1 hpg hqg heq
    | exact hga _ hpg heq
    | exact hgb _ hpg heq
    | exact (hga _ hqg heq.symm).symm
    | exact (hgb _ hqg heq.symm).symm
    | exact absurd heq (by omega)
    | exact absurd heq (by have h2 := hb _ hpg; omega)
    | exact absurd heq (by have h2 := hb _ hqg; omega)
    | (rcases hab with rfl | hne
       · rfl
       · exact absurd heq hne)
    | (rcases hab with rfl | hne
       · rfl
       · exact absurd heq.symm hne)

/-- The common wiring pattern of the binary tile builders (`tile_trsm`,
`tile_syrk`, and the unconditional part of `tile_gemm`): edges from the
two data operands into a fresh control node and from the control node to
the fresh output tile preserve well-formedness and bipartiteness, and
every node of the result is an old node or one of the four involved. -/
theorem builder_addEdgesFrom_inv (g : Graph) (bound : Nat) (a b ctrl x : PyNode)
    (t1 t2 t3 : List (String × String))
    (hwf : g.WF) (hbip : g.Bipartite) (hb : ∀ q ∈ g.nodes, q.uid < bound)
    (hau : a.uid < bound) (hpa : g.NodePlace a) (hda : a.isData = true)
    (hbu : b.uid < bound) (hpb : g.NodePlace b) (hdb : b.isData = true)
    (hab : a = b ∨ a.uid ≠ b.uid)
    (hctrl : ctrl.isData = false) (hcu : bound ≤ ctrl.uid)
    (hx : x.isData = true) (hxu : bound ≤ x.uid) (hcx : ctrl.uid ≠ x.uid) :
    (g.addEdgesFrom [(a, ctrl, t1), (b, ctrl, t2), (ctrl, x, t3)]).WF ∧
    (g.addEdgesFrom [(a, ctrl, t1), (b, ctrl, t2), (ctrl, x, t3)]).Bipartite ∧
    (∀ q ∈ (g.addEdgesFrom [(a, ctrl, t1), (b, ctrl, t2), (ctrl, x, t3)]).nodes,
        q ∈ g.nodes ∨ q = a ∨ q = b ∨ q = ctrl ∨ q = x) := by
  have hkinds : ∀ t ∈ ([(a, ctrl, t1), (b, ctrl, t2), (ctrl, x, t3)] :
      List (PyNode × PyNode × List (String × String))),
      (t.1 : PyNode).isData ≠ (t.2.1 : PyNode).isData := by
    intro t ht
    rcases List.mem_cons.mp ht with rfl | ht
    · rw [show (a, ctrl, t1).1.isData = a.isData from rfl,
        show (a, ctrl, t1).2.1.isData = ctrl.isData from rfl, hda, hctrl]
      simp
    rcases List.mem_cons.mp ht with rfl | ht
    · rw [show (b, ctrl, t2).1.isData = b.isData from rfl,
        show (b, ctrl, t2).2.1.isData = ctrl.isData from rfl, hdb, hctrl]
      simp
    rcases List.mem_cons.mp ht with rfl | ht
    · rw [show (ctrl, x, t3).1.isData = ctrl.isData from rfl,
        show (ctrl, x, t3).2.1.isData = x.isData from rfl, hx, hctrl]
      simp
    · exact absurd ht (List.not_mem_nil t)
  have hcons : UidConsistent (g.nodes ++
      ([(a, ctrl, t1), (b, ctrl, t2), (ctrl, x, t3)] :
        List (PyNode × PyNode × List (String × String))).flatMap
        (fun t => [t.1, t.2.1])) := by
    refine consistent_builder g bound a b ctrl x _ ?_ hwf hb hau hpa hbu hpb hab hcu hxu hcx
    intro r hr
    simp only [List.flatMap_cons, List.flatMap_nil, List.append_nil, List.cons_append,
      List.nil_append, List.mem_cons, List.not_mem_nil, or_false] at hr
    rcases hr with rfl | rfl | rfl | rfl | rfl | rfl
    · exact Or.inl rfl
    · exact Or.inr (Or.inr (Or.inl rfl))
    · exact Or.inr (Or.inl rfl)
    · exact Or.inr (Or.inr (Or.inl rfl))
    · exact Or.inr (Or.inr (Or.inl rfl))
    · exact Or.inr (Or.inr (Or.inr rfl))
  obtain ⟨hwfr, hbipr, hnodes⟩ := addEdgesFrom_inv
    [(a, ctrl, t1), (b, ctrl, t2), (ctrl, x, t3)] g hwf hbip hkinds hcons
  refine ⟨hwfr, hbipr, ?_⟩
  intro q hq
  rcases hnodes q hq with h | ⟨t, ht, h⟩
  · exact Or.inl h
  · rcases List.mem_cons.mp ht with rfl | ht
    · rcases h with rfl | rfl
      · exact Or.inr (Or.inl rfl)
      · exact Or.inr (Or.inr (Or.inr (Or.inl rfl)))
    rcases List.mem_cons.mp ht with rfl | ht
    · rcases h with rfl | rfl
      · exact Or.inr (Or.inr (Or.inl rfl))
      · exact Or.inr (Or.inr (Or.inr (Or.inl rfl)))
    rcases List.mem_cons.mp ht with rfl | ht
    · rcases h with rfl | rfl
      · exact Or.inr (Or.inr (Or.inr (Or.inl rfl)))
      · exact Or.inr (Or.inr (Or.inr (Or.inr rfl)))
    · exact absurd ht (List.not_mem_nil t)

/-- `tile_trsm` preserves the construction invariant: given data-node
operands of the active graph, the new `TRSM` wiring keeps the graph
well-formed and bipartite. -/
theorem tile_trsm_inv (alpha : Rat) (a b : PyNode) (side lower trans_a diag ow : Int)
    (st : BuildState) (x : PyNode) (st' : BuildState)
    (hok : tile_trsm alpha a b side lower trans_a diag ow st = .ok x st')
    (hinv : BuildInv st) (ha : st.ArgOK a) (hb : st.ArgOK b)
    (hda : a.isData = true) (hdb : b.isData = true) (hab : a = b ∨ a.uid ≠ b.uid) :
    BuildInv st' := by
  obtain ⟨bu, binfo⟩ := b
  cases binfo with
  | control op ps => simp [PyNode.isData, NodeInfo.isData] at hdb
  | data brid bsh bv =>
    simp only [tile_trsm] at hok
    cases hok
    dsimp only [BuildInv]
    have H := builder_addEdgesFrom_inv st.graph st.next a
        ⟨bu, NodeInfo.data brid bsh bv⟩
        ⟨st.next + 1, NodeInfo.control OpCode.TRSM
          [("alpha", PValue.float alpha), ("side", PValue.int side), ("lower", PValue.int lower),
           ("trans_a", PValue.int trans_a), ("diag", PValue.int diag), ("overwrite_b", PValue.int ow)]⟩
        ⟨st.next, NodeInfo.data none bsh PValue.none⟩
        [("input_name", "a")] [("input_name", "b")] [("output_name", "x")]
        hinv.1 hinv.2.1 hinv.2.2 ha.1 ha.2 hda hb.1 hb.2 hdb hab rfl
        (by show st.next ≤ st.next + 1; omega) rfl (by show st.next ≤ st.next; omega)
        (by show st.next + 1 ≠ st.next; omega)
    refine ⟨H.1, H.2.1, ?_⟩
    intro q hq
    show q.uid < st.next + 2
    rcases H.2.2 q hq with h | h | h | h | h
    · have h2 := hinv.2.2 q h
      omega
    · have h2 := ha.1
      rw [h]
      omega
    · rw [h]
      show bu < st.next + 2
      have h2 : bu < st.next := hb.1
      omega
    · rw [h]
      show st.next + 1 < st.next + 2
      omega
    · rw [h]
      show st.next < st.next + 2
      omega

/-- `tile_syrk` preserves the construction invariant. -/
theorem tile_syrk_inv (alpha : Rat) (a c : PyNode) (beta : Rat) (trans lower ow : Int)
    (st : BuildState) (x : PyNode) (st' : BuildState)
    (hok : tile_syrk alpha a c beta trans lower ow st = .ok x st')
    (hinv : BuildInv st) (ha : st.ArgOK a) (hc : st.ArgOK c)
    (hda : a.isData = true) (hdc : c.isData = true) (hac : a = c ∨ a.uid ≠ c.uid) :
    BuildInv st' := by
  obtain ⟨au, ainfo⟩ := a
  cases ainfo with
  | control op ps => simp [PyNode.isData, NodeInfo.isData] at hda
  | data arid ash av =>
    simp only [tile_syrk] at hok
    cases hok
    dsimp only [BuildInv]
    have H := builder_addEdgesFrom_inv st.graph st.next
        ⟨au, NodeInfo.data arid ash av⟩ c
        ⟨st.next + 1, NodeInfo.control OpCode.SYRK
          [("alpha", PValue.float alpha), ("beta", PValue.float beta), ("trans", PValue.int trans),
           ("lower", PValue.int lower), ("overwrite_c", PValue.int ow)]⟩
        ⟨st.next, NodeInfo.data none ash PValue.none⟩
        [("input_name", "a")] [("input_name", "c")] [("output_name", "c")]
        hinv.1 hinv.2.1 hinv.2.2 ha.1 ha.2 hda hc.1 hc.2 hdc hac rfl
        (by show st.next ≤ st.next + 1; omega) rfl (by show st.next ≤ st.next; omega)
        (by show st.next + 1 ≠ st.next; omega)
    refine ⟨H.1, H.2.1, ?_⟩
    intro q hq
    show q.uid < st.next + 2
    rcases H.2.2 q hq with h | h | h | h | h
    · have h2 := hinv.2.2 q h
      omega
    · rw [h]
      show au < st.next + 2
      have h2 : au < st.next := ha.1
      omega
    · have h2 := hc.1
      rw [h]
      omega
    · rw [h]
      show st.next + 1 < st.next + 2
      omega
    · rw [h]
      show st.next < st.next + 2
      omega

/-- The wiring pattern of the unary tile builder `tile_potrf`: an edge
from the data operand into a fresh control node and from the control
node to the fresh output tile. -/
theorem builder2_addEdgesFrom_inv (g : Graph) (bound : Nat) (a ctrl l : PyNode)
    (t1 t2 : List (String × String))
    (hwf : g.WF) (hbip : g.Bipartite) (hb : ∀ q ∈ g.nodes, q.uid < bound)
    (hau : a.uid < bound) (hpa : g.NodePlace a) (hda : a.isData = true)
    (hctrl : ctrl.isData = false) (hcu : bound ≤ ctrl.uid)
    (hl : l.isData = true) (hlu : bound ≤ l.uid) (hcl : ctrl.uid ≠ l.uid) :
    (g.addEdgesFrom [(a, ctrl, t1), (ctrl, l, t2)]).WF ∧
    (g.addEdgesFrom [(a, ctrl, t1), (ctrl, l, t2)]).Bipartite ∧
    (∀ q ∈ (g.addEdgesFrom [(a, ctrl, t1), (ctrl, l, t2)]).nodes,
        q ∈ g.nodes ∨ q = a ∨ q = ctrl ∨ q = l) := by
  have hkinds : ∀ t ∈ ([(a, ctrl, t1), (ctrl, l, t2)] :
      List (PyNode × PyNode × List (String × String))),
      (t.1 : PyNode).isData ≠ (t.2.1 : PyNode).isData := by
    intro t ht
    rcases List.mem_cons.mp ht with rfl | ht
    · rw [show (a, ctrl, t1).1.isData = a.isData from rfl,
        show (a, ctrl, t1).2.1.isData = ctrl.isData from rfl, hda, hctrl]
      simp
    rcases List.mem_cons.mp ht with rfl | ht
    · rw [show (ctrl, l, t2).1.isData = ctrl.isData from rfl,
        show (ctrl, l, t2).2.1.isData = l.isData from rfl, hl, hctrl]
      simp
    · exact absurd ht (List.not_mem_nil t)
  have hcons : UidConsistent (g.nodes ++
      ([(a, ctrl, t1), (ctrl, l, t2)] :
        List (PyNode × PyNode × List (String × String))).flatMap
        (fun t => [t.1, t.2.1])) := by
    refine consistent_builder g bound a a ctrl l _ ?_ hwf hb hau hpa hau hpa
      (Or.inl rfl) hcu hlu hcl
    intro r hr
    simp only [List.flatMap_cons, List.flatMap_nil, List.append_nil, List.cons_append,
      List.nil_append, List.mem_cons, List.not_mem_nil, or_false] at hr
    rcases hr with rfl | rfl | rfl | rfl
    · exact Or.inl rfl
    · exact Or.inr (Or.inr (Or.inl rfl))
    · exact Or.inr (Or.inr (Or.inl rfl))
    · exact Or.inr (Or.inr (Or.inr rfl))
  obtain ⟨hwfr, hbipr, hnodes⟩ := addEdgesFrom_inv
    [(a, ctrl, t1), (ctrl, l, t2)] g hwf hbip hkinds hcons
  refine ⟨hwfr, hbipr, ?_⟩
  intro q hq
  rcases hnodes q hq with h | ⟨t, ht, h⟩
  · exact Or.inl h
  · rcases List.mem_cons.mp ht with rfl | ht
    · rcases h with rfl | rfl
      · exact Or.inr (Or.inl rfl)
      · exact Or.inr (Or.inr (Or.inl rfl))
    rcases List.mem_cons.mp ht with rfl | ht
    · rcases h with rfl | rfl
      · exact Or.inr (Or.inr (Or.inl rfl))
      · exact Or.inr (Or.inr (Or.inr rfl))
    · exact absurd ht (List.not_mem_nil t)

/-- `tile_potrf` preserves the construction invariant. -/
theorem tile_potrf_inv (a : PyNode) (lower clean ow : Int)
    (st : BuildState) (l : PyNode) (st' : BuildState)
    (hok : tile_potrf a lower clean ow st = .ok l st')
    (hinv : BuildInv st) (ha : st.ArgOK a) (hda : a.isData = true) :
    BuildInv st' := by
  obtain ⟨au, ainfo⟩ := a
  cases ainfo with
  | control op ps => simp [PyNode.isData, NodeInfo.isData] at hda
  | data arid ash av =>
    simp only [tile_potrf] at hok
    cases hok
    dsimp only [BuildInv]
    have H := builder2_addEdgesFrom_inv st.graph st.next
        ⟨au, NodeInfo.data arid ash av⟩
        ⟨st.next, NodeInfo.control OpCode.POTRF
          [("lower", PValue.int lower), ("clean", PValue.int clean),
           ("overwrite_a", PValue.int ow)]⟩
        ⟨st.next + 1, NodeInfo.data none ash PValue.none⟩
        [("input_name", "a")] [("output_name", "l")]
        hinv.1 hinv.2.1 hinv.2.2 ha.1 ha.2 hda rfl
        (by show st.next ≤ st.next; omega) rfl (by show st.next ≤ st.next + 1; omega)
        (by show st.next ≠ st.next + 1; omega)
    refine ⟨H.1, H.2.1, ?_⟩
    intro q hq
    show q.uid < st.next + 2
    rcases H.2.2 q hq with h | h | h | h
    · have h2 := hinv.2.2 q h
      omega
    · rw [h]
      show au < st.next + 2
      have h2 : au < st.next := ha.1
      omega
    · rw [h]
      show st.next < st.next + 2
      omega
    · rw [h]
      show st.next + 1 < st.next + 2
      omega

/-- The wiring pattern of `tile_gemm` when the optional `c` operand is
supplied: the v-shaped wiring plus one extra `c -> control` edge. -/
theorem builder_gemm_addEdge_inv (g : Graph) (bound : Nat) (a b cn ctrl x : PyNode)
    (t1 t2 t3 t4 : List (String × String))
    (hwf : g.WF) (hbip : g.Bipartite) (hb : ∀ q ∈ g.nodes, q.uid < bound)
    (hau : a.uid < bound) (hpa : g.NodePlace a) (hda : a.isData = true)
    (hbu : b.uid < bound) (hpb : g.NodePlace b) (hdb : b.isData = true)
    (hab : a = b ∨ a.uid ≠ b.uid)
    (hctrl : ctrl.isData = false) (hcu : bound ≤ ctrl.uid)
    (hx : x.isData = true) (hxu : bound ≤ x.uid) (hcx : ctrl.uid ≠ x.uid)
    (hcnu : cn.uid < bound) (hpcn : g.NodePlace cn) (hdcn : cn.isData = true)
    (hcna : cn = a ∨ cn.uid ≠ a.uid) (hcnb : cn = b ∨ cn.uid ≠ b.uid) :
    ((g.addEdgesFrom [(a, ctrl, t1), (b, ctrl, t2), (ctrl, x, t3)]).addEdge cn ctrl t4).WF ∧
    ((g.addEdgesFrom [(a, ctrl, t1), (b, ctrl, t2), (ctrl, x, t3)]).addEdge cn ctrl t4).Bipartite ∧
    (∀ q ∈ ((g.addEdgesFrom [(a, ctrl, t1), (b, ctrl, t2), (ctrl, x, t3)]).addEdge cn ctrl t4).nodes,
        q ∈ g.nodes ∨ q = a ∨ q = b ∨ q = ctrl ∨ q = x ∨ q = cn) := by
  have H := builder_addEdgesFrom_inv g bound a b ctrl x t1 t2 t3
    hwf hbip hb hau hpa hda hbu hpb hdb hab hctrl hcu hx hxu hcx
  have hplcn : (g.addEdgesFrom [(a, ctrl, t1), (b, ctrl, t2), (ctrl, x, t3)]).NodePlace cn := by
    refine place_of_consistent _ cn ?_
    intro p hp heq
    rcases H.2.2 p hp with h | h | h | h | h
    · exact consistent_of_place g hwf cn hpcn p h heq
    · subst h
      rcases hcna with rfl | hne
      · rfl
      · exact absurd heq.symm hne
    · subst h
      rcases hcnb with rfl | hne
      · rfl
      · exact absurd heq.symm hne
    · subst h
      exact absurd heq (by omega)
    · subst h
      exact absurd heq (by omega)
  have hplctrl : (g.addEdgesFrom [(a, ctrl, t1), (b, ctrl, t2), (ctrl, x, t3)]).NodePlace ctrl := by
    refine place_of_consistent _ ctrl ?_
    intro p hp heq
    rcases H.2.2 p hp with h | h | h | h | h
    · have h2 := hb p h
      exact absurd heq (by omega)
    · subst h
      exact absurd heq (by omega)
    · subst h
      exact absurd heq (by omega)
    · exact h
    · subst h
      exact absurd heq (by omega)
  have E := Graph.addEdge_preserve
    (g.addEdgesFrom [(a, ctrl, t1), (b, ctrl, t2), (ctrl, x, t3)]) cn ctrl t4
    H.1 H.2.1 hplcn hplctrl (by omega) (by rw [hdcn, hctrl]; simp)
  refine ⟨E.1, E.2.1, ?_⟩
  intro q hq
  rcases E.2.2.1 q hq with h | h | h
  · rcases H.2.2 q h with h2 | h2 | h2 | h2 | h2
    · exact Or.inl h2
    · exact Or.inr (Or.inl h2)
    · exact Or.inr (Or.inr (Or.inl h2))
    · exact Or.inr (Or.inr (Or.inr (Or.inl h2)))
    · exact Or.inr (Or.inr (Or.inr (Or.inr (Or.inl h2))))
  · exact Or.inr (Or.inr (Or.inr (Or.inr (Or.inr h))))
  · exact Or.inr (Or.inr (Or.inr (Or.inl h)))

/-- `tile_gemm` preserves the construction invariant, with or without
the optional `c` operand. -/
theorem tile_gemm_inv (alpha : Rat) (a b : PyNode) (beta : Rat) (c : Option PyNode)
    (trans_a trans_b ow : Int)
    (st : BuildState) (x : PyNode) (st' : BuildState)
    (hok : tile_gemm alpha a b beta c trans_a trans_b ow st = .ok x st')
    (hinv : BuildInv st) (ha : st.ArgOK a) (hb : st.ArgOK b)
    (hda : a.isData = true) (hdb : b.isData = true) (hab : a = b ∨ a.uid ≠ b.uid)
    (hc : ∀ cn, c = some cn → st.ArgOK cn ∧ cn.isData = true ∧
      (cn = a ∨ cn.uid ≠ a.uid) ∧ (cn = b ∨ cn.uid ≠ b.uid)) :
    BuildInv st' := by
  obtain ⟨au, ainfo⟩ := a
  cases ainfo with
  | control op ps => simp [PyNode.isData, NodeInfo.isData] at hda
  | data arid ash av =>
    cases c with
    | none =>
      simp only [tile_gemm] at hok
      cases hok
      dsimp only [BuildInv]
      have H := builder_addEdgesFrom_inv st.graph st.next
          ⟨au, NodeInfo.data arid ash av⟩ b
          ⟨st.next + 1, NodeInfo.control OpCode.GEMM
            [("alpha", PValue.float alpha), ("beta", PValue.float beta),
             ("trans_a", PValue.int trans_a), ("trans_b", PValue.int trans_b),
             ("overwrite_c", PValue.int ow)]⟩
          ⟨st.next, NodeInfo.data none ash PValue.none⟩
          [("input_name", "a")] [("input_name", "b")] [("output_name", "c")]
          hinv.1 hinv.2.1 hinv.2.2 ha.1 ha.2 hda hb.1 hb.2 hdb hab rfl
          (by show st.next ≤ st.next + 1; omega) rfl (by show st.next ≤ st.next; omega)
          (by show st.next + 1 ≠ st.next; omega)
      refine ⟨H.1, H.2.1, ?_⟩
      intro q hq
      show q.uid < st.next + 2
      rcases H.2.2 q hq with h | h | h | h | h
      · have h2 := hinv.2.2 q h
        omega
      · rw [h]
        show au < st.next + 2
        have h2 : au < st.next := ha.1
        omega
      · have h2 := hb.1
        rw [h]
        omega
      · rw [h]
        show st.next + 1 < st.next + 2
        omega
      · rw [h]
        show st.next < st.next + 2
        omega
    | some cn =>
      obtain ⟨hcarg, hcdata, hcna, hcnb⟩ := hc cn rfl
      simp only [tile_gemm] at hok
      cases hok
      dsimp only [BuildInv]
      have H := builder_gemm_addEdge_inv st.graph st.next
          ⟨au, NodeInfo.data arid ash av⟩ b cn
          ⟨st.next + 1, NodeInfo.control OpCode.GEMM
            [("alpha", PValue.float alpha), ("beta", PValue.float beta),
             ("trans_a", PValue.int trans_a), ("trans_b", PValue.int trans_b),
             ("overwrite_c", PValue.int ow)]⟩
          ⟨st.next, NodeInfo.data none ash PValue.none⟩
          [("input_name", "a")] [("input_name", "b")] [("output_name", "c")]
          [("input_name", "c")]
          hinv.1 hinv.2.1 hinv.2.2 ha.1 ha.2 hda hb.1 hb.2 hdb hab rfl
          (by show st.next ≤ st.next + 1; omega) rfl (by show st.next ≤ st.next; omega)
          (by show st.next + 1 ≠ st.next; omega)
          hcarg.1 hcarg.2 hcdata hcna hcnb
      refine ⟨H.1, H.2.1, ?_⟩
      intro q hq
      show q.uid < st.next + 2
      rcases H.2.2 q hq with h | h | h | h | h | h
      · have h2 := hinv.2.2 q h
        omega
      · rw [h]
        show au < st.next + 2
        have h2 : au < st.next := ha.1
        omega
      · have h2 := hb.1
        rw [h]
        omega
      · rw [h]
        show st.next + 1 < st.next + 2
        omega
      · rw [h]
        show st.next < st.next + 2
        omega
      · have h2 := hcarg.1
        rw [h]
        omega

/-- An entry of `a[i, j] = tile` updates is an old entry or the new
binding. -/
theorem tilesSet_mem (m : List ((Nat × Nat) × PyNode)) (k : Nat × Nat) (n : PyNode)
    (kv : (Nat × Nat) × PyNode) (h : kv ∈ tilesSet m k n) : kv ∈ m ∨ kv = (k, n) := by
  unfold tilesSet at h
  split at h
  · obtain ⟨kv', hkv', he⟩ := List.mem_map.mp h
    by_cases hk : (kv'.1 == k) = true
    · rw [if_pos hk] at he
      exact Or.inr he.symm
    · rw [if_neg hk] at he
      exact Or.inl (he ▸ hkv')
  · rcases List.mem_append.mp h with h | h
    · exact Or.inl h
    · exact Or.inr (List.mem_singleton.mp h)

/-- The tile-creation loop of `remote_dtarray_generator` preserves
well-formedness and bipartiteness (it adds nodes, no edges), keeps every
node identity below the fresh counter, and leaves every stored tile a
data node resolvable in the graph. -/
theorem genFill_inv (ts : Nat) :
    ∀ (idxs : List (Nat × Nat)) (a : DTArray) (st : BuildState),
      st.graph.WF → st.graph.Bipartite →
      (∀ q ∈ st.graph.nodes, q.uid < st.next) →
      (∀ kv ∈ a.tiles, ((kv : (Nat × Nat) × PyNode).2).isData = true ∧
        st.graph.lookupNode (kv.2).uid = some kv.2) →
      (genFill ts idxs a st).2.graph.WF ∧
      (genFill ts idxs a st).2.graph.Bipartite ∧
      (∀ q ∈ (genFill ts idxs a st).2.graph.nodes, q.uid < (genFill ts idxs a st).2.next) ∧
      (∀ kv ∈ (genFill ts idxs a st).1.tiles, ((kv : (Nat × Nat) × PyNode).2).isData = true ∧
        (genFill ts idxs a st).2.graph.lookupNode (kv.2).uid = some kv.2) := by
  intro idxs
  induction idxs with
  | nil =>
    intro a st hwf hbip hb htiles
    exact ⟨hwf, hbip, hb, htiles⟩
  | cons hd rest ih =>
    obtain ⟨i, j⟩ := hd
    intro a st hwf hbip hb htiles
    simp only [genFill, DTArray.setItem]
    have hfresh : st.next ∉ st.graph.uids :=
      fresh_not_mem_uids st.graph st.next st.next hb (Nat.le_refl _)
    refine ih ⟨a.shape, tilesSet a.tiles (i, j) ⟨st.next, .data Option.none [ts, ts] .none⟩⟩
      ⟨st.graph.addNode ⟨st.next, .data Option.none [ts, ts] .none⟩, st.next + 1⟩
      (Graph.addNode_WF st.graph _ hwf)
      (Graph.addNode_bipartite st.graph _ hwf hbip) ?_ ?_
    · intro q hq
      rcases Graph.addNode_nodes_mem st.graph _ q hq with h | h
      · have h2 := hb q h
        show q.uid < st.next + 1
        omega
      · rw [h]
        show st.next < st.next + 1
        omega
    · intro kv hkv
      rcases tilesSet_mem a.tiles (i, j) _ kv hkv with h | h
      · obtain ⟨hd1, hd2⟩ := htiles kv h
        refine ⟨hd1, ?_⟩
        rw [Graph.addNode_lookup_pres st.graph _ _ (by simp [hd2])]
        exact hd2
      · rw [h]
        exact ⟨rfl, Graph.addNode_lookup_self st.graph _ hfresh⟩

/-- The `DRGM` control nodes of `remote_dtarray_generator` are control
nodes with strictly increasing fresh identities. -/
theorem genControls_facts (ts : Nat) (gen : String) :
    ∀ (tiles : List ((Nat × Nat) × PyNode)) (next : Nat),
      (∀ e ∈ (genControls ts gen tiles next).1,
        ((e : (Nat × Nat) × PyNode).2).isData = false ∧
        next ≤ (e.2).uid ∧ (e.2).uid < (genControls ts gen tiles next).2) ∧
      next ≤ (genControls ts gen tiles next).2 ∧
      List.Pairwise (fun u v => ((u : (Nat × Nat) × PyNode).2).uid < ((v : (Nat × Nat) × PyNode).2).uid)
        (genControls ts gen tiles next).1 := by
  intro tiles
  induction tiles with
  | nil =>
    intro next
    refine ⟨?_, Nat.le_refl _, List.Pairwise.nil⟩
    intro e he
    exact absurd he (List.not_mem_nil e)
  | cons hd rest ih =>
    obtain ⟨idx, nd⟩ := hd
    intro next
    simp only [genControls]
    obtain ⟨ih1, ih2, ih3⟩ := ih (next + 1)
    refine ⟨?_, by omega, ?_⟩
    · intro e he
      rcases List.mem_cons.mp he with rfl | he
      · refine ⟨rfl, Nat.le_refl _, ?_⟩
        show next < (genControls ts gen rest (next + 1)).2
        omega
      · obtain ⟨h1, h2, h3⟩ := ih1 e he
        exact ⟨h1, by omega, h3⟩
    · refine List.pairwise_cons.mpr ⟨?_, ih3⟩
      intro v hv
      obtain ⟨_, h2, _⟩ := ih1 v hv
      show next < (v.2).uid
      omega

/-- The edge loop of `remote_dtarray_generator` wires each fresh control
node to its (data) tile, preserving well-formedness and bipartiteness. -/
theorem addGenEdges_inv (a : DTArray) :
    ∀ (lst : List ((Nat × Nat) × PyNode)) (g : Graph) (bound top : Nat),
      g.WF → g.Bipartite →
      (∀ q ∈ g.nodes, q.uid < bound) →
      (∀ kv ∈ a.tiles, ((kv : (Nat × Nat) × PyNode).2).isData = true ∧
        g.lookupNode (kv.2).uid = some kv.2) →
      (∀ e ∈ lst, ((e : (Nat × Nat) × PyNode).2).isData = false) →
      List.Pairwise (fun u v => ((u : (Nat × Nat) × PyNode).2).uid < ((v : (Nat × Nat) × PyNode).2).uid) lst →
      (∀ e ∈ lst, bound ≤ ((e : (Nat × Nat) × PyNode).2).uid) →
      (∀ e ∈ lst, ((e : (Nat × Nat) × PyNode).2).uid < top) →
      bound ≤ top →
      (addGenEdges a lst g).WF ∧ (addGenEdges a lst g).Bipartite ∧
        (∀ q ∈ (addGenEdges a lst g).nodes, q.uid < top) := by
  intro lst
  induction lst with
  | nil =>
    intro g bound top hwf hbip hb _ _ _ _ _ hbt
    refine ⟨hwf, hbip, ?_⟩
    intro q hq
    have h2 := hb q hq
    omega
  | cons hd rest ih =>
    obtain ⟨idx, ctrl⟩ := hd
    intro g bound top hwf hbip hb htiles hctl hpair hge hlt hbt
    simp only [addGenEdges]
    have hpair2 := List.pairwise_cons.mp hpair
    cases hfind : a.tiles.find? (fun kv => kv.1 == idx) with
    | none =>
      simp only [hfind]
      refine ih g bound top hwf hbip hb htiles ?_ hpair2.2 ?_ ?_ hbt
      · intro e he
        exact hctl e (List.mem_cons_of_mem _ he)
      · intro e he
        exact hge e (List.mem_cons_of_mem _ he)
      · intro e he
        exact hlt e (List.mem_cons_of_mem _ he)
    | some kv =>
      simp only [hfind]
      have hkvmem : kv ∈ a.tiles := List.mem_of_find?_eq_some hfind
      obtain ⟨hkvd, hkvlk⟩ := htiles kv hkvmem
      have hkvg : kv.2 ∈ g.nodes := List.mem_of_find?_eq_some hkvlk
      have hkvb : (kv.2).uid < bound := hb _ hkvg
      have hcu : bound ≤ ctrl.uid := hge _ (List.mem_cons_self _ _)
      have hct : ctrl.uid < top := hlt _ (List.mem_cons_self _ _)
      have hcd : ctrl.isData = false := hctl _ (List.mem_cons_self _ _)
      have E := Graph.addEdge_preserve g ctrl kv.2 [("output_name", "a")] hwf hbip
        (Or.inr (fresh_not_mem_uids g bound ctrl.uid hb hcu))
        (Or.inl hkvlk) (by omega) (by rw [hcd, hkvd]; simp)
      refine ih (g.addEdge ctrl kv.2 [("output_name", "a")]) (ctrl.uid + 1) top
        E.1 E.2.1 ?_ ?_ ?_ hpair2.2 ?_ ?_ (by omega)
      · intro q hq
        rcases E.2.2.1 q hq with h | h | h
        · have h2 := hb q h
          omega
        · rw [h]
          omega
        · rw [h]
          omega
      · intro kv' hkv'
        obtain ⟨h1, h2⟩ := htiles kv' hkv'
        refine ⟨h1, ?_⟩
        rw [E.2.2.2.1 _ (by simp [h2])]
        exact h2
      · intro e he
        exact hctl e (List.mem_cons_of_mem _ he)
      · intro e he
        have h2 : ctrl.uid < ((e : (Nat × Nat) × PyNode).2).uid := hpair2.1 e he
        omega
      · intro e he
        exact hlt e (List.mem_cons_of_mem _ he)

/-- `remote_dtarray_generator` preserves the construction invariant. -/
theorem remote_dtarray_generator_inv (n_dim tile_size : Nat) (generate : String)
    (st : BuildState) (hinv : BuildInv st) :
    BuildInv (remote_dtarray_generator n_dim tile_size generate st).2 := by
  obtain ⟨hwf, hbip, hb⟩ := hinv
  dsimp only [remote_dtarray_generator]
  dsimp only [BuildInv]
  have F := genFill_inv tile_size
    ((List.range n_dim).flatMap (fun i => (List.range n_dim).map (fun j => (i, j))))
    ⟨[n_dim, n_dim], []⟩ st hwf hbip hb
    (by intro kv hkv; exact absurd hkv (List.not_mem_nil kv))
  obtain ⟨F1, F2, F3, F5⟩ := F
  have G := genControls_facts tile_size generate
    (genFill tile_size
      ((List.range n_dim).flatMap (fun i => (List.range n_dim).map (fun j => (i, j))))
      ⟨[n_dim, n_dim], []⟩ st).1.tiles
    (genFill tile_size
      ((List.range n_dim).flatMap (fun i => (List.range n_dim).map (fun j => (i, j))))
      ⟨[n_dim, n_dim], []⟩ st).2.next
  obtain ⟨G1, G2, G3⟩ := G
  have A := addGenEdges_inv
    (genFill tile_size
      ((List.range n_dim).flatMap (fun i => (List.range n_dim).map (fun j => (i, j))))
      ⟨[n_dim, n_dim], []⟩ st).1
    (genControls tile_size generate
      (genFill tile_size
        ((List.range n_dim).flatMap (fun i => (List.range n_dim).map (fun j => (i, j))))
        ⟨[n_dim, n_dim], []⟩ st).1.tiles
      (genFill tile_size
        ((List.range n_dim).flatMap (fun i => (List.range n_dim).map (fun j => (i, j))))
        ⟨[n_dim, n_dim], []⟩ st).2.next).1
    (genFill tile_size
      ((List.range n_dim).flatMap (fun i => (List.range n_dim).map (fun j => (i, j))))
      ⟨[n_dim, n_dim], []⟩ st).2.graph
    (genFill tile_size
      ((List.range n_dim).flatMap (fun i => (List.range n_dim).map (fun j => (i, j))))
      ⟨[n_dim, n_dim], []⟩ st).2.next
    (genControls tile_size generate
      (genFill tile_size
        ((List.range n_dim).flatMap (fun i => (List.range n_dim).map (fun j => (i, j))))
        ⟨[n_dim, n_dim], []⟩ st).1.tiles
      (genFill tile_size
        ((List.range n_dim).flatMap (fun i => (List.range n_dim).map (fun j => (i, j))))
        ⟨[n_dim, n_dim], []⟩ st).2.next).2
    F1 F2 F3
    (by intro kv hkv; exact F5 kv hkv)
    (by intro e he; exact (G1 e he).1)
    G3
    (by intro e he; exact (G1 e he).2.1)
    (by intro e he; exact (G1 e he).2.2)
    G2
  exact ⟨A.1, A.2.1, A.2.2⟩

/-- C10: every edge an operator builder adds to the active graph joins a
data node and a control node, so each builder — `tile_trsm`, `tile_syrk`,
`tile_potrf`, `tile_gemm` (with or without the optional `c` operand) and
`remote_dtarray_generator` — preserves the construction invariant
(well-formed and bipartite graph, node identities below the fresh-id
counter).  Operands must be data nodes consistently placed in the active
graph, as every builder call site guarantees; hence a graph constructed
exclusively through operator builders satisfies the bipartite invariant
at every point during construction. -/
theorem operator_builders_preserve_bipartite (st : BuildState) (hinv : BuildInv st) :
    (∀ alpha a b side lower trans_a diag ow x st',
      st.ArgOK a → st.ArgOK b → a.isData = true → b.isData = true →
      (a = b ∨ a.uid ≠ b.uid) →
      tile_trsm alpha a b side lower trans_a diag ow st = .ok x st' → BuildInv st') ∧
    (∀ alpha a c beta trans lower ow x st',
      st.ArgOK a → st.ArgOK c → a.isData = true → c.isData = true →
      (a = c ∨ a.uid ≠ c.uid) →
      tile_syrk alpha a c beta trans lower ow st = .ok x st' → BuildInv st') ∧
    (∀ a lower clean ow l st',
      st.ArgOK a → a.isData = true →
      tile_potrf a lower clean ow st = .ok l st' → BuildInv st') ∧
    (∀ alpha a b beta c trans_a trans_b ow x st',
      st.ArgOK a → st.ArgOK b → a.isData = true → b.isData = true →
      (a = b ∨ a.uid ≠ b.uid) →
      (∀ cn, c = some cn → st.ArgOK cn ∧ cn.isData = true ∧
        (cn = a ∨ cn.uid ≠ a.uid) ∧ (cn = b ∨ cn.uid ≠ b.uid)) →
      tile_gemm alpha a b beta c trans_a trans_b ow st = .ok x st' → BuildInv st') ∧
    (∀ n_dim tile_size generate,
      BuildInv (remote_dtarray_generator n_dim tile_size generate st).2) := by
  refine ⟨?_, ?_, ?_, ?_, ?_⟩
  · intro alpha a b side lower trans_a diag ow x st' ha hb hda hdb hab hok
    exact tile_trsm_inv alpha a b side lower trans_a diag ow st x st' hok hinv ha hb hda hdb hab
  · intro alpha a c beta trans lower ow x st' ha hc hda hdc hac hok
    exact tile_syrk_inv alpha a c beta trans lower ow st x st' hok hinv ha hc hda hdc hac
  · intro a lower clean ow l st' ha hda hok
    exact tile_potrf_inv a lower clean ow st l st' hok hinv ha hda
  · intro alpha a b beta c trans_a trans_b ow x st' ha hb hda hdb hab hc hok
    exact tile_gemm_inv alpha a b beta c trans_a trans_b ow st x st' hok hinv ha hb hda hdb hab hc
  · intro n_dim tile_size generate
    exact remote_dtarray_generator_inv n_dim tile_size generate st ⟨hinv.1, hinv.2.1, hinv.2.2⟩

/-- Witness for C10 at a concrete state: the finished POTRF demo graph
(three nodes, next fresh id 3) satisfies the construction invariant, a
`tile_trsm` call on its two tiles preserves it, and so does generating a
2 x 2 identity array. -/
theorem operator_builders_preserve_bipartite_witness :
    BuildInv ⟨gWitness, 3⟩ ∧
    (∃ x st', tile_trsm 1 ⟨0, .data (some 10) [2, 2] .none⟩ ⟨2, .data (some 11) [2, 2] .none⟩
        0 0 0 0 0 ⟨gWitness, 3⟩ = .ok x st' ∧ BuildInv st') ∧
    BuildInv (remote_dtarray_generator 2 2 "identity" ⟨gWitness, 3⟩).2 := by
  refine ⟨by decide, ⟨_, _, rfl, ?_⟩, ?_⟩
  · exact (operator_builders_preserve_bipartite ⟨gWitness, 3⟩ (by decide)).1
      1 ⟨0, .data (some 10) [2, 2] .none⟩ ⟨2, .data (some 11) [2, 2] .none⟩ 0 0 0 0 0 _ _
      ⟨by decide, Or.inl rfl⟩ ⟨by decide, Or.inl rfl⟩ rfl rfl (Or.inr (by decide)) rfl
  · exact (operator_builders_preserve_bipartite ⟨gWitness, 3⟩ (by decide)).2.2.2.2 2 2 "identity"
